import Mathlib

/-!
Verification development for the ohmcord session-negotiation subsystem.

Part 1 models the client-side peer negotiation engine (`PeerMesh` in
`apps/desktop/src/net/peerMesh.ts`): per-remote-peer connection records with
perfect-negotiation flags, explicit sender bookkeeping, ICE candidate
queueing, and the signaling-message dispatcher.  The `RTCPeerConnection`
negotiation primitives (`setLocalDescription`, `setRemoteDescription`,
`addIceCandidate`, rollback) are modelled as pure transitions on an abstract
connection state that records the signaling state, the two descriptions and
the list of applied candidates; `createOffer` / `createAnswer` produce opaque
SDP strings.  Every client-side operation returns, alongside the new state,
the list of externally visible effects (messages sent via the signaling
channel and calls performed on the underlying connection object).

Part 2 (further below) models the relay server (`apps/server/src/index.ts`
and `apps/server/src/rooms.ts`) and the reconnecting signaling transport
(`apps/desktop/src/net/signalingClient.ts`).
-/

/-- Signaling state of the underlying connection object. -/
inductive SigState where
  | stable
  | haveLocalOffer
  | haveRemoteOffer
deriving DecidableEq

/-- Kind of a session description. -/
inductive DescType where
  | offer
  | answer
deriving DecidableEq

/-- A session description: a kind together with an opaque SDP payload. -/
structure SessionDesc where
  dtype : DescType
  sdp : String
deriving DecidableEq

/-- Abstract model of the browser RTCPeerConnection negotiation state. -/
structure RTCPeerConnection where
  signalingState : SigState
  localDescription : Option SessionDesc
  remoteDescription : Option SessionDesc
  /-- Candidates applied through `addIceCandidate`, in application order. -/
  appliedIce : List String
deriving DecidableEq

/-- A freshly constructed connection: stable, no descriptions, no candidates. -/
def freshRTCPeerConnection : RTCPeerConnection :=
  { signalingState := SigState.stable
    localDescription := none
    remoteDescription := none
    appliedIce := [] }

/-- `setLocalDescription` with an offer. -/
def RTCPeerConnection.setLocalOffer (pc : RTCPeerConnection) (sdp : String) :
    RTCPeerConnection :=
  { pc with localDescription := some ⟨DescType.offer, sdp⟩
            signalingState := SigState.haveLocalOffer }

/-- `setRemoteDescription` with an offer. -/
def RTCPeerConnection.setRemoteOffer (pc : RTCPeerConnection) (sdp : String) :
    RTCPeerConnection :=
  { pc with remoteDescription := some ⟨DescType.offer, sdp⟩
            signalingState := SigState.haveRemoteOffer }

/-- `setRemoteDescription` with an answer: the exchange completes, back to stable. -/
def RTCPeerConnection.setRemoteAnswer (pc : RTCPeerConnection) (sdp : String) :
    RTCPeerConnection :=
  { pc with remoteDescription := some ⟨DescType.answer, sdp⟩
            signalingState := SigState.stable }

/-- `setLocalDescription({type:"rollback"})`: abandon the in-flight local offer. -/
def RTCPeerConnection.rollbackLocal (pc : RTCPeerConnection) : RTCPeerConnection :=
  { pc with localDescription := none
            signalingState := SigState.stable }

/-- `createAnswer` followed by `setLocalDescription`: answer set, back to stable. -/
def RTCPeerConnection.setLocalAnswer (pc : RTCPeerConnection) (sdp : String) :
    RTCPeerConnection :=
  { pc with localDescription := some ⟨DescType.answer, sdp⟩
            signalingState := SigState.stable }

/-- `addIceCandidate`: record the candidate as applied, preserving order. -/
def RTCPeerConnection.addIceCandidate (pc : RTCPeerConnection) (cand : String) :
    RTCPeerConnection :=
  { pc with appliedIce := pc.appliedIce ++ [cand] }

/-- The three local media sender slots of a peer link. -/
inductive SenderSlot where
  | micAudio
  | screenAudio
  | screenVideo
deriving DecidableEq

/-- Externally visible effects of a client-side operation: messages handed to
the signaling channel and calls on the underlying connection object. -/
inductive Effect where
  | sentOffer (target : String) (sdp : String)
  | sentAnswer (target : String) (sdp : String)
  | rollback
  | setRemote (d : SessionDesc)
  | setLocal (d : SessionDesc)
  | appliedCandidate (cand : String)
  | addTrack (slot : SenderSlot) (track : String)
  | removeTrack (slot : SenderSlot)
  | replaceTrack (slot : SenderSlot) (track : String)
deriving DecidableEq

/-- Model of `a.localeCompare(b) < 0`: lexicographic string comparison
(`String.lt` is exactly the lexicographic order on the underlying character
lists).  Used both for the `polite` role and for the designated initiator. -/
def localeCompareLt (a b : String) : Bool := decide (a.data < b.data)

/-- One per-remote-peer link (`PeerConn` in the source): the connection state,
the data-channel/sender bookkeeping and the perfect-negotiation flags. -/
structure PeerConn where
  pc : RTCPeerConnection
  hasDataChannel : Bool
  micAudioSender : Option String
  screenAudioSender : Option String
  screenVideoSender : Option String
  displayName : String
  polite : Bool
  makingOffer : Bool
  ignoreOffer : Bool
  pendingIce : List String
  needsNegotiation : Bool
deriving DecidableEq

/-- Identity of a remote peer as delivered by the server. -/
structure PeerInfo where
  peerId : String
  displayName : String
deriving DecidableEq

/-- The client-side mesh: one `PeerConn` per remote peer plus the local
published tracks (tracks are identified by their id strings). -/
structure PeerMesh where
  localPeerId : String
  roomId : String
  peers : List (String × PeerConn)
  localAudioTrack : Option String
  localScreenTrack : Option String
  localScreenAudioTrack : Option String
deriving DecidableEq

/-- `this.peers.get(pid)`. -/
def lookupPeer (peers : List (String × PeerConn)) (pid : String) : Option PeerConn :=
  (peers.find? (fun e => e.1 == pid)).map (fun e => e.2)

/-- Overwrite the link stored for `pid` (mutation of the map entry in place). -/
def PeerMesh.setPeer (m : PeerMesh) (pid : String) (conn : PeerConn) : PeerMesh :=
  { m with peers := m.peers.map (fun e => if e.1 == pid then (pid, conn) else e) }

/-- `syncMicAudioSender`: reconcile the mic sender slot with the published
track.  Returns the updated link, the connection calls performed, and whether
the sender topology changed (which is what forces an offer). -/
def syncMicAudioSender (localAudioTrack : Option String) (conn : PeerConn) :
    PeerConn × List Effect × Bool :=
  match localAudioTrack with
  | none =>
    match conn.micAudioSender with
    | some _ =>
      ({ conn with micAudioSender := none }, [Effect.removeTrack SenderSlot.micAudio], true)
    | none => (conn, [], false)
  | some track =>
    match conn.micAudioSender with
    | some current =>
      if current = track then (conn, [], false)
      else ({ conn with micAudioSender := some track },
            [Effect.replaceTrack SenderSlot.micAudio track], false)
    | none =>
      ({ conn with micAudioSender := some track },
       [Effect.addTrack SenderSlot.micAudio track], true)

/-- `syncScreenAudioSender`, same discipline for the screen-audio slot. -/
def syncScreenAudioSender (localScreenAudioTrack : Option String) (conn : PeerConn) :
    PeerConn × List Effect × Bool :=
  match localScreenAudioTrack with
  | none =>
    match conn.screenAudioSender with
    | some _ =>
      ({ conn with screenAudioSender := none }, [Effect.removeTrack SenderSlot.screenAudio], true)
    | none => (conn, [], false)
  | some track =>
    match conn.screenAudioSender with
    | some current =>
      if current = track then (conn, [], false)
      else ({ conn with screenAudioSender := some track },
            [Effect.replaceTrack SenderSlot.screenAudio track], false)
    | none =>
      ({ conn with screenAudioSender := some track },
       [Effect.addTrack SenderSlot.screenAudio track], true)

/-- `syncScreenVideoSender`, same discipline for the screen-video slot. -/
def syncScreenVideoSender (localScreenTrack : Option String) (conn : PeerConn) :
    PeerConn × List Effect × Bool :=
  match localScreenTrack with
  | none =>
    match conn.screenVideoSender with
    | some _ =>
      ({ conn with screenVideoSender := none }, [Effect.removeTrack SenderSlot.screenVideo], true)
    | none => (conn, [], false)
  | some track =>
    match conn.screenVideoSender with
    | some current =>
      if current = track then (conn, [], false)
      else ({ conn with screenVideoSender := some track },
            [Effect.replaceTrack SenderSlot.screenVideo track], false)
    | none =>
      ({ conn with screenVideoSender := some track },
       [Effect.addTrack SenderSlot.screenVideo track], true)

/-- The opaque SDP produced by `createOffer` (never inspected by the protocol). -/
def mkOfferSdp : String := "offer-sdp"

/-- The opaque SDP produced by `createAnswer` in response to a remote offer. -/
def mkAnswerSdp (remoteSdp : String) : String := String.append "answer-to-" remoteSdp

/-- Core of `negotiate` on a single link: the guard against re-entrant offer
creation, the guard deferring renegotiation while not stable, and the offer
send.  `makingOffer` is set for the duration of the call and always cleared
in the `finally` block, so it nets to `false` in this synchronous model. -/
def negotiateConn (peerId : String) (conn : PeerConn) : PeerConn × List Effect :=
  if conn.makingOffer then (conn, [])
  else if conn.pc.signalingState ≠ SigState.stable then
    ({ conn with needsNegotiation := true }, [])
  else
    let sdp := mkOfferSdp
    ({ conn with pc := conn.pc.setLocalOffer sdp, makingOffer := false },
     [Effect.setLocal ⟨DescType.offer, sdp⟩, Effect.sentOffer peerId sdp])

/-- `PeerMesh.negotiate(peerId)`. -/
def PeerMesh.negotiate (m : PeerMesh) (peerId : String) : PeerMesh × List Effect :=
  match lookupPeer m.peers peerId with
  | none => (m, [])
  | some conn =>
    let r := negotiateConn peerId conn
    (m.setPeer peerId r.1, r.2)

/-- The link created by `ensurePeer` for a previously unseen peer, before the
initial sender synchronisation: `polite` is computed once, deterministically,
from the two peer identifiers. -/
def newPeerConn (localPeerId : String) (peer : PeerInfo) : PeerConn :=
  { pc := freshRTCPeerConnection
    hasDataChannel := false
    micAudioSender := none
    screenAudioSender := none
    screenVideoSender := none
    displayName := peer.displayName
    polite := localeCompareLt localPeerId peer.peerId
    makingOffer := false
    ignoreOffer := false
    pendingIce := []
    needsNegotiation := false }

/-- `ensurePeer`: idempotent link creation.  The designated initiator (same
deterministic identifier comparison as `polite`) opens the data channel and
immediately forces the initial offer. -/
def PeerMesh.ensurePeer (m : PeerMesh) (peer : PeerInfo) : PeerMesh × List Effect :=
  if (lookupPeer m.peers peer.peerId).isSome then (m, [])
  else
    let conn0 := newPeerConn m.localPeerId peer
    let s1 := syncMicAudioSender m.localAudioTrack conn0
    let s2 := syncScreenAudioSender m.localScreenAudioTrack s1.1
    let s3 := syncScreenVideoSender m.localScreenTrack s2.1
    let effSync := s1.2.1 ++ s2.2.1 ++ s3.2.1
    let shouldInitiate := localeCompareLt m.localPeerId peer.peerId
    if shouldInitiate then
      let m1 := { m with peers := m.peers ++ [(peer.peerId, { s3.1 with hasDataChannel := true })] }
      let r := m1.negotiate peer.peerId
      (r.1, effSync ++ r.2)
    else
      ({ m with peers := m.peers ++ [(peer.peerId, s3.1)] }, effSync)

/-- Server-to-client signaling messages consumed by `handleSignaling`. -/
inductive ClientMsg where
  | peersList (peers : List PeerInfo)
  | peerJoined (peer : PeerInfo)
  | peerLeft (peerId : String)
  | offer (src : String) (sdp : String)
  | answer (src : String) (sdp : String)
  | ice (src : String) (cand : String)
deriving DecidableEq

/-- The offer branch of `handleSignaling`: perfect-negotiation collision
resolution, pending-candidate flush, answer generation. -/
def PeerMesh.handleOffer (m : PeerMesh) (src sdp : String) : PeerMesh × List Effect :=
  let r0 := m.ensurePeer ⟨src, src⟩
  let m1 := r0.1
  match lookupPeer m1.peers src with
  | none => (m1, r0.2)
  | some conn =>
    let offerCollision := conn.makingOffer || decide (conn.pc.signalingState ≠ SigState.stable)
    if !conn.polite && offerCollision then
      (m1.setPeer src { conn with ignoreOffer := true }, r0.2)
    else
      let desc : SessionDesc := ⟨DescType.offer, sdp⟩
      let pcEff : RTCPeerConnection × List Effect :=
        if offerCollision && conn.polite then
          ((conn.pc.rollbackLocal).setRemoteOffer sdp, [Effect.rollback, Effect.setRemote desc])
        else
          (conn.pc.setRemoteOffer sdp, [Effect.setRemote desc])
      let pc2 := conn.pendingIce.foldl (fun pc c => pc.addIceCandidate c) pcEff.1
      let flushEff := conn.pendingIce.map Effect.appliedCandidate
      let ans := mkAnswerSdp sdp
      let conn1 : PeerConn :=
        { conn with pc := pc2.setLocalAnswer ans, ignoreOffer := false, pendingIce := [] }
      (m1.setPeer src conn1,
       r0.2 ++ pcEff.2 ++ flushEff ++
         [Effect.setLocal ⟨DescType.answer, ans⟩, Effect.sentAnswer src ans])

/-- The answer branch of `handleSignaling`: apply the remote answer directly.
Note that this branch performs no pending-candidate flush. -/
def PeerMesh.handleAnswer (m : PeerMesh) (src sdp : String) : PeerMesh × List Effect :=
  match lookupPeer m.peers src with
  | none => (m, [])
  | some conn =>
    (m.setPeer src { conn with pc := conn.pc.setRemoteAnswer sdp },
     [Effect.setRemote ⟨DescType.answer, sdp⟩])

/-- The ice branch of `handleSignaling`: drop when `ignoreOffer` is set,
queue when no remote description exists yet, apply otherwise. -/
def PeerMesh.handleIce (m : PeerMesh) (src cand : String) : PeerMesh × List Effect :=
  match lookupPeer m.peers src with
  | none => (m, [])
  | some conn =>
    if conn.ignoreOffer then (m, [])
    else if conn.pc.remoteDescription.isNone then
      (m.setPeer src { conn with pendingIce := conn.pendingIce ++ [cand] }, [])
    else
      (m.setPeer src { conn with pc := conn.pc.addIceCandidate cand },
       [Effect.appliedCandidate cand])

/-- The peer-left branch of `handleSignaling`: close and discard the link. -/
def PeerMesh.handlePeerLeft (m : PeerMesh) (pid : String) : PeerMesh × List Effect :=
  match lookupPeer m.peers pid with
  | some _ => ({ m with peers := m.peers.filter (fun e => e.1 != pid) }, [])
  | none => (m, [])

/-- `handleSignaling`: dispatch on the incoming signaling message. -/
def PeerMesh.handleSignaling (m : PeerMesh) : ClientMsg → PeerMesh × List Effect
  | ClientMsg.peersList ps =>
    ps.foldl (fun acc p => let r := acc.1.ensurePeer p; (r.1, acc.2 ++ r.2)) (m, [])
  | ClientMsg.peerJoined p => m.ensurePeer p
  | ClientMsg.peerLeft pid => m.handlePeerLeft pid
  | ClientMsg.offer src sdp => m.handleOffer src sdp
  | ClientMsg.answer src sdp => m.handleAnswer src sdp
  | ClientMsg.ice src cand => m.handleIce src cand

/-- Per-link body of `setLocalAudioTrack`: reconcile the mic slot, then
negotiate exactly when the sender topology changed. -/
def micPublishStep (track : Option String) (pid : String) (conn : PeerConn) :
    PeerConn × List Effect :=
  let s := syncMicAudioSender track conn
  if s.2.2 then
    let r := negotiateConn pid s.1
    (r.1, s.2.1 ++ r.2)
  else (s.1, s.2.1)

/-- Per-link body of `setLocalScreenMedia`: reconcile the two screen slots
(video first, as in the source), then negotiate once if either changed. -/
def screenPublishStep (videoTrack audioTrack : Option String) (pid : String)
    (conn : PeerConn) : PeerConn × List Effect :=
  let sv := syncScreenVideoSender videoTrack conn
  let sa := syncScreenAudioSender audioTrack sv.1
  if sv.2.2 || sa.2.2 then
    let r := negotiateConn pid sa.1
    (r.1, sv.2.1 ++ sa.2.1 ++ r.2)
  else (sa.1, sv.2.1 ++ sa.2.1)

/-- `setLocalAudioTrack`: store the track, then run the per-link step on
every current link. -/
def PeerMesh.setLocalAudioTrack (m : PeerMesh) (track : Option String) :
    PeerMesh × List Effect :=
  let m0 := { m with localAudioTrack := track }
  (m0.peers.map Prod.fst).foldl
    (fun acc pid =>
      match lookupPeer acc.1.peers pid with
      | none => acc
      | some conn =>
        let r := micPublishStep track pid conn
        (acc.1.setPeer pid r.1, acc.2 ++ r.2))
    (m0, [])

/-- `setLocalScreenMedia`: store the screen stream's video/audio tracks, then
run the per-link step on every current link. -/
def PeerMesh.setLocalScreenMedia (m : PeerMesh)
    (media : Option (Option String × Option String)) : PeerMesh × List Effect :=
  let videoTrack := match media with
    | none => none
    | some s => s.1
  let audioTrack := match media with
    | none => none
    | some s => s.2
  let m0 := { m with localScreenTrack := videoTrack, localScreenAudioTrack := audioTrack }
  (m0.peers.map Prod.fst).foldl
    (fun acc pid =>
      match lookupPeer acc.1.peers pid with
      | none => acc
      | some conn =>
        let r := screenPublishStep videoTrack audioTrack pid conn
        (acc.1.setPeer pid r.1, acc.2 ++ r.2))
    (m0, [])

/-!
Model of `SignalingClient` (`apps/desktop/src/net/signalingClient.ts`):
a state machine over the connect / disconnect entry points and the
websocket open / close callbacks plus the reconnect timer callback.
`wsCreated` counts constructions of a `WebSocket` so that "no code path
creates a new connection" is an observable fact of a run.
-/

/-- State of the reconnecting signaling transport. -/
structure SignalingClient where
  /-- `this.ws !== null`. -/
  wsAlive : Bool
  intentionalClose : Bool
  /-- `this.reconnectTimer !== null`: a reconnect is scheduled. -/
  reconnectTimer : Bool
  reconnectAttempts : Nat
  /-- Instrumentation: number of `new WebSocket(...)` constructions so far. -/
  wsCreated : Nat
deriving DecidableEq

/-- `createWebSocket`: construct and install a fresh websocket. -/
def SignalingClient.createWebSocket (s : SignalingClient) : SignalingClient :=
  { s with wsAlive := true, wsCreated := s.wsCreated + 1 }

/-- `scheduleReconnect`: idempotent arming of the backoff timer. -/
def SignalingClient.scheduleReconnect (s : SignalingClient) : SignalingClient :=
  if s.reconnectTimer then s
  else { s with reconnectTimer := true, reconnectAttempts := s.reconnectAttempts + 1 }

/-- Events driving the transport state machine: the two public entry points
and the three asynchronous callbacks. -/
inductive SigEvent where
  | connect
  | disconnect
  | wsOpen
  | wsClose
  | timerFire
deriving DecidableEq

/-- One transition of the transport state machine. -/
def sigStep (s : SignalingClient) : SigEvent → SignalingClient
  | SigEvent.connect =>
    if s.wsAlive then s
    else SignalingClient.createWebSocket { s with intentionalClose := false }
  | SigEvent.disconnect =>
    { s with intentionalClose := true, reconnectTimer := false, wsAlive := false }
  | SigEvent.wsOpen =>
    { s with reconnectAttempts := 0, reconnectTimer := false }
  | SigEvent.wsClose =>
    let s1 := { s with wsAlive := false }
    if s1.intentionalClose then s1 else s1.scheduleReconnect
  | SigEvent.timerFire =>
    if !s.reconnectTimer then s
    else
      let s1 := { s with reconnectTimer := false }
      if s1.intentionalClose then s1
      else if s1.wsAlive then s1
      else s1.createWebSocket

/-- Run the transport state machine over a sequence of events. -/
def sigRun (s : SignalingClient) (evs : List SigEvent) : SignalingClient :=
  evs.foldl sigStep s

/-!
Model of the relay server (`apps/server/src/index.ts`, `apps/server/src/rooms.ts`).
Rooms hold the peer ids of their active participants and watchers (JS `Map`
keys, insertion-ordered, unique); the connected clients' records live in a
single registry list, mirroring the fact that a JS `Client` object is shared
between the room maps and the connection handler.  Handlers return the new
server state together with the list of messages sent, each tagged with the
peer id of its recipient.
-/

/-- Server-side record for one connected control connection. -/
structure SClient where
  peerId : String
  displayName : String
  roomId : Option String
  micOn : Bool
  deafened : Bool
deriving DecidableEq

/-- A room: insertion-ordered sets of active participants and watchers. -/
structure SRoom where
  roomId : String
  clients : List String
  watchers : List String
deriving DecidableEq

/-- Whole-server state: the room registry and the connected clients. -/
structure ServerState where
  rooms : List SRoom
  clients : List SClient
deriving DecidableEq

/-- The summary of a participant included in membership messages. -/
structure PeerSummary where
  peerId : String
  displayName : String
  micOn : Bool
  deafened : Bool
deriving DecidableEq

/-- Server-to-client messages (the fields relevant to the negotiation core). -/
inductive SMsg where
  | welcome (peerId : String)
  | peersMsg (roomId : String) (peers : List PeerSummary)
  | roomPeers (roomId : String) (peers : List PeerSummary)
  | peerJoined (roomId : String) (peer : PeerSummary)
  | roomPeerJoined (roomId : String) (peer : PeerSummary)
  | peerLeft (roomId : String) (peerId : String)
  | roomPeerLeft (roomId : String) (peerId : String)
  | peerState (roomId : String) (peerId : String) (micOn : Bool) (deafened : Bool)
  | offerMsg (src : String) (sdp : String)
  | answerMsg (src : String) (sdp : String)
  | iceMsg (src : String) (cand : String)
  | textMsg (roomId : String) (channelId : String) (src : PeerSummary) (message : String)
  | vadMsg (roomId : String) (src : String) (speaking : Bool)
deriving DecidableEq

/-- Client-to-server control messages. -/
inductive CMsg where
  | join (roomId : String) (displayName : String)
  | watch (roomId : String)
  | unwatch (roomId : String)
  | leave
  | state (roomId : String) (micOn : Bool) (deafened : Bool)
  | offer (target : String) (sdp : String)
  | answer (target : String) (sdp : String)
  | ice (target : String) (cand : String)
  | text (roomId : String) (channelId : String) (message : String)
  | vad (roomId : String) (speaking : Bool)
deriving DecidableEq

/-- An outgoing message tagged with its recipient's peer id. -/
abbrev Out := List (String × SMsg)

/-- `rooms.get(roomId)`. -/
def getRoom (s : ServerState) (rid : String) : Option SRoom :=
  s.rooms.find? (fun r => r.roomId == rid)

/-- Store back a (mutated) room under its id. -/
def setRoom (s : ServerState) (room : SRoom) : ServerState :=
  { s with rooms := s.rooms.map (fun r => if r.roomId == room.roomId then room else r) }

/-- `getOrCreateRoom`: create-on-demand, appended at the end of the registry. -/
def getOrCreateRoom (s : ServerState) (rid : String) : ServerState × SRoom :=
  match getRoom s rid with
  | some r => (s, r)
  | none =>
    let r : SRoom := ⟨rid, [], []⟩
    ({ s with rooms := s.rooms ++ [r] }, r)

/-- `deleteRoomIfEmpty`: drop the room when both membership maps are empty. -/
def deleteRoomIfEmpty (s : ServerState) (rid : String) : ServerState :=
  match getRoom s rid with
  | some r =>
    if r.clients = [] ∧ r.watchers = [] then
      { s with rooms := s.rooms.filter (fun q => q.roomId != rid) }
    else s
  | none => s

/-- `removeWatcherFromAllRooms`: erase the watcher everywhere, deleting any
room this leaves fully empty. -/
def removeWatcherFromAllRooms (s : ServerState) (pid : String) : ServerState :=
  { s with rooms := s.rooms.filterMap (fun room =>
      let r1 := { room with watchers := room.watchers.erase pid }
      if r1.clients = [] ∧ r1.watchers = [] then none else some r1) }

/-- Find a connected client's record. -/
def findClient (s : ServerState) (pid : String) : Option SClient :=
  s.clients.find? (fun c => c.peerId == pid)

/-- Update a connected client's record in place. -/
def updateClient (s : ServerState) (pid : String) (f : SClient → SClient) : ServerState :=
  { s with clients := s.clients.map (fun c => if c.peerId == pid then f c else c) }

/-- `toPeerSummary`. -/
def toPeerSummary (c : SClient) : PeerSummary :=
  ⟨c.peerId, c.displayName, c.micOn, c.deafened⟩

/-- Summary of the client registered under `pid` (rooms only ever hold ids of
registered clients, so the fallback is never exercised on reachable states). -/
def summaryOf (s : ServerState) (pid : String) : PeerSummary :=
  match findClient s pid with
  | some c => toPeerSummary c
  | none => ⟨pid, "", false, false⟩

/-- `roomRecipients`: active participants then watchers, deduplicated by peer
id with first-insertion order, as a JS `Map` built clients-first would hold. -/
def roomRecipients (room : SRoom) : List String :=
  room.clients ++ room.watchers.filter (fun w => !room.clients.contains w)

/-- JS `Map.set` on a key list: keep position if present, else append. -/
def insertId (l : List String) (x : String) : List String :=
  if l.contains x then l else l ++ [x]

/-- `leaveCurrentRoom`: remove the client from its active room, notify the
remaining members and the watchers, clear the client's room field, and delete
the room if that left it fully empty. -/
def leaveCurrentRoom (s : ServerState) (cid : String) : ServerState × Out :=
  match findClient s cid with
  | none => (s, [])
  | some c =>
    match c.roomId with
    | none => (s, [])
    | some rid =>
      match getRoom s rid with
      | none => (updateClient s cid (fun cl => { cl with roomId := none }), [])
      | some room =>
        let room1 : SRoom := { room with clients := room.clients.erase cid }
        let out1 : Out := room1.clients.map (fun p => (p, SMsg.peerLeft rid cid))
        let out2 : Out :=
          ((roomRecipients room1).filter (fun p => p != cid)).map
            (fun p => (p, SMsg.roomPeerLeft rid cid))
        let s1 := setRoom s room1
        let s2 := updateClient s1 cid (fun cl => { cl with roomId := none })
        (deleteRoomIfEmpty s2 rid, out1 ++ out2)

/-- The join handler: leave any prior room, register as active in the target
room, return the membership list to the caller, and broadcast the join to the
room's active participants and watchers. -/
def joinHandler (s : ServerState) (cid : String) (rid : String) (name : String) :
    ServerState × Out :=
  let rL := leaveCurrentRoom s cid
  let s2 := updateClient rL.1 cid (fun cl => { cl with displayName := name, roomId := some rid })
  let rG := getOrCreateRoom s2 rid
  let room1 : SRoom := { rG.2 with clients := insertId rG.2.clients cid }
  let s4 := setRoom rG.1 room1
  let peersL : List PeerSummary :=
    (room1.clients.filter (fun p => p != cid)).map (summaryOf s4)
  let selfSummary := summaryOf s4 cid
  let outSelf : Out := [(cid, SMsg.peersMsg rid peersL)]
  let outJ : Out := (room1.clients.filter (fun p => p != cid)).map
    (fun p => (p, SMsg.peerJoined rid selfSummary))
  let outRJ : Out := ((roomRecipients room1).filter (fun p => p != cid)).map
    (fun p => (p, SMsg.roomPeerJoined rid selfSummary))
  (s4, rL.2 ++ outSelf ++ outJ ++ outRJ)

/-- The watch handler: idempotent watcher upsert plus an immediate membership
snapshot; nobody else is notified. -/
def watchHandler (s : ServerState) (cid : String) (rid : String) : ServerState × Out :=
  let rG := getOrCreateRoom s rid
  let room1 : SRoom := { rG.2 with watchers := insertId rG.2.watchers cid }
  let s2 := setRoom rG.1 room1
  let peersL : List PeerSummary := room1.clients.map (summaryOf s2)
  (s2, [(cid, SMsg.roomPeers rid peersL)])

/-- The unwatch handler: remove the watcher, delete the room if now empty. -/
def unwatchHandler (s : ServerState) (cid : String) (rid : String) : ServerState × Out :=
  match getRoom s rid with
  | none => (s, [])
  | some room =>
    let room1 : SRoom := { room with watchers := room.watchers.erase cid }
    let s1 := setRoom s room1
    (deleteRoomIfEmpty s1 room.roomId, [])

/-- The state handler: validate that the caller is active in the named room;
update stored mic/deafen state; broadcast to all other recipients. -/
def stateHandler (s : ServerState) (cid : String) (rid : String)
    (micOn deafened : Bool) : ServerState × Out :=
  match findClient s cid with
  | none => (s, [])
  | some c =>
    match c.roomId with
    | none => (s, [])
    | some crid =>
      match getRoom s crid with
      | none => (s, [])
      | some room =>
        if rid ≠ room.roomId then (s, [])
        else
          let s1 := updateClient s cid
            (fun cl => { cl with micOn := micOn, deafened := deafened })
          let out : Out := ((roomRecipients room).filter (fun p => p != cid)).map
            (fun p => (p, SMsg.peerState room.roomId cid micOn deafened))
          (s1, out)

/-- The relay branch for offer/answer/ice: route to the target if it is an
active member of the caller's current room, silently drop otherwise. -/
def relayHandler (s : ServerState) (cid : String) (m : CMsg) : ServerState × Out :=
  match findClient s cid with
  | none => (s, [])
  | some c =>
    match c.roomId with
    | none => (s, [])
    | some crid =>
      match getRoom s crid with
      | none => (s, [])
      | some room =>
        match m with
        | CMsg.offer target sdp =>
          if room.clients.contains target then (s, [(target, SMsg.offerMsg cid sdp)])
          else (s, [])
        | CMsg.answer target sdp =>
          if room.clients.contains target then (s, [(target, SMsg.answerMsg cid sdp)])
          else (s, [])
        | CMsg.ice target cand =>
          if room.clients.contains target then (s, [(target, SMsg.iceMsg cid cand)])
          else (s, [])
        | CMsg.text rid chan msg =>
          if rid ≠ room.roomId then (s, [])
          else (s, room.clients.map (fun p => (p, SMsg.textMsg rid chan (summaryOf s cid) msg)))
        | CMsg.vad rid speaking =>
          if rid ≠ room.roomId then (s, [])
          else (s, (room.clients.filter (fun p => p != cid)).map
            (fun p => (p, SMsg.vadMsg room.roomId cid speaking)))
        | _ => (s, [])

/-- Dispatch of one parsed control message from client `cid`. -/
def processMessage (s : ServerState) (cid : String) : CMsg → ServerState × Out
  | CMsg.join rid name => joinHandler s cid rid name
  | CMsg.watch rid => watchHandler s cid rid
  | CMsg.unwatch rid => unwatchHandler s cid rid
  | CMsg.leave => leaveCurrentRoom s cid
  | CMsg.state rid micOn deafened => stateHandler s cid rid micOn deafened
  | m => relayHandler s cid m

/-- The websocket close handler: implicit leave plus watcher cleanup, then
the client's record disappears with its connection. -/
def disconnectHandler (s : ServerState) (cid : String) : ServerState × Out :=
  let rL := leaveCurrentRoom s cid
  let s1 := removeWatcherFromAllRooms rL.1 cid
  ({ s1 with clients := s1.clients.filter (fun c => c.peerId != cid) }, rL.2)

/-- One externally observable server step: a control message or a disconnect. -/
inductive SEvent where
  | msg (m : CMsg)
  | disconnect
deriving DecidableEq

/-- State reached after the server finishes processing one event from `cid`. -/
def serverStep (s : ServerState) (cid : String) : SEvent → ServerState × Out
  | SEvent.msg m => processMessage s cid m
  | SEvent.disconnect => disconnectHandler s cid

/-!
Theorems.  Each claim of the specification is settled by one theorem below;
shared helper lemmas come first.
-/

/-- `ensurePeer` is a no-op when the link already exists. -/
theorem ensurePeer_of_mem (m : PeerMesh) (p : PeerInfo)
    (h : (lookupPeer m.peers p.peerId).isSome) : m.ensurePeer p = (m, []) := by
  simp [PeerMesh.ensurePeer, h]

/-- C2: politeness is a pure deterministic function of the two peer
identifiers (the `localeCompareLt` comparison used by `ensurePeer` when it
builds the link), and for distinct identifiers exactly one of the two sides
computes `polite = true`: the two computations are never both true nor both
false. -/
theorem claim_C2_polite_exactly_one (a b dn dn' : String) (h : a ≠ b) :
    (newPeerConn a ⟨b, dn⟩).polite = localeCompareLt a b ∧
    (newPeerConn b ⟨a, dn'⟩).polite = localeCompareLt b a ∧
    ((localeCompareLt a b = true ∧ localeCompareLt b a = false) ∨
     (localeCompareLt a b = false ∧ localeCompareLt b a = true)) := by
  refine ⟨rfl, rfl, ?_⟩
  have hd : a.data ≠ b.data := fun hd => h (String.ext hd)
  unfold localeCompareLt
  rcases lt_trichotomy a.data b.data with h1 | h1 | h1
  · left
    exact ⟨decide_eq_true h1, decide_eq_false (asymm h1)⟩
  · exact absurd h1 hd
  · right
    exact ⟨decide_eq_false (asymm h1), decide_eq_true h1⟩

theorem claim_C2_witness :
    ("alice" : String) ≠ "bob" ∧
    ((newPeerConn "alice" ⟨"bob", "Bob"⟩).polite = localeCompareLt "alice" "bob" ∧
     (newPeerConn "bob" ⟨"alice", "Alice"⟩).polite = localeCompareLt "bob" "alice" ∧
     ((localeCompareLt "alice" "bob" = true ∧ localeCompareLt "bob" "alice" = false) ∨
      (localeCompareLt "alice" "bob" = false ∧ localeCompareLt "bob" "alice" = true))) :=
  ⟨by decide, claim_C2_polite_exactly_one "alice" "bob" "Bob" "Alice" (by decide)⟩

/-- A link that is mid-offer, quiescent otherwise: `negotiate` called on it
exercises the `makingOffer` early return. -/
def connMidOffer : PeerConn :=
  { pc := freshRTCPeerConnection
    hasDataChannel := true
    micAudioSender := none
    screenAudioSender := none
    screenVideoSender := none
    displayName := "b"
    polite := true
    makingOffer := true
    ignoreOffer := false
    pendingIce := []
    needsNegotiation := false }

/-- A link whose connection is not in the stable signaling state. -/
def connUnstable : PeerConn :=
  { connMidOffer with
      makingOffer := false
      pc := freshRTCPeerConnection.setRemoteOffer "s" }

/-- C4 counterexample: a `negotiate` call that finds `makingOffer = true`
returns without sending an offer but does NOT set `needsRenegotiation`,
contradicting the claim that both guard failures set the flag. -/
theorem claim_C4_counterexample :
    connMidOffer.makingOffer = true ∧
    connMidOffer.needsNegotiation = false ∧
    (negotiateConn "b" connMidOffer).2 = [] ∧
    (negotiateConn "b" connMidOffer).1.needsNegotiation = false := by
  decide

/-- C4 (amended): if `makingOffer` is already true, `negotiate` returns with
the link completely untouched (in particular `needsRenegotiation` keeps its
old value) and sends nothing; only when `makingOffer` is false and the
connection is not stable does it set `needsRenegotiation := true` and return
without creating or sending an offer. -/
theorem claim_C4_negotiate_guards (pid : String) (conn : PeerConn) :
    (conn.makingOffer = true → negotiateConn pid conn = (conn, [])) ∧
    (conn.makingOffer = false → conn.pc.signalingState ≠ SigState.stable →
      negotiateConn pid conn = ({ conn with needsNegotiation := true }, [])) := by
  constructor
  · intro h
    simp [negotiateConn, h]
  · intro h h2
    simp [negotiateConn, h, h2]

theorem claim_C4_witness :
    negotiateConn "b" connMidOffer = (connMidOffer, []) ∧
    negotiateConn "b" connUnstable = ({ connUnstable with needsNegotiation := true }, []) :=
  ⟨(claim_C4_negotiate_guards "b" connMidOffer).1 rfl,
   (claim_C4_negotiate_guards "b" connUnstable).2 rfl (by decide)⟩

/-- After an intentional close, every event other than an explicit `connect`
leaves the intentional-close mark in place, keeps the reconnect timer
disarmed, and constructs no websocket. -/
theorem sigRun_after_intentional (t : SignalingClient) (evs : List SigEvent)
    (hI : t.intentionalClose = true) (hT : t.reconnectTimer = false)
    (hevs : ∀ e ∈ evs, e ≠ SigEvent.connect) :
    (sigRun t evs).wsCreated = t.wsCreated ∧
    (sigRun t evs).reconnectTimer = false ∧
    (sigRun t evs).intentionalClose = true := by
  induction evs generalizing t with
  | nil => exact ⟨rfl, hT, hI⟩
  | cons e rest ih =>
    have he : e ≠ SigEvent.connect := hevs e (List.mem_cons_self e rest)
    have hstep : (sigStep t e).wsCreated = t.wsCreated ∧
        (sigStep t e).reconnectTimer = false ∧
        (sigStep t e).intentionalClose = true := by
      cases e with
      | connect => exact absurd rfl he
      | disconnect => exact ⟨rfl, rfl, rfl⟩
      | wsOpen => exact ⟨rfl, rfl, hI⟩
      | wsClose => simp [sigStep, hI, hT]
      | timerFire => simp [sigStep, hT, hI]
    have hrest : ∀ e' ∈ rest, e' ≠ SigEvent.connect :=
      fun e' he' => hevs e' (List.mem_cons_of_mem e he')
    have := ih (sigStep t e) hstep.2.2 hstep.2.1 hrest
    exact ⟨by rw [sigRun, List.foldl_cons, ← sigRun, this.1, hstep.1],
           by rw [sigRun, List.foldl_cons, ← sigRun]; exact this.2.1,
           by rw [sigRun, List.foldl_cons, ← sigRun]; exact this.2.2⟩

/-- C9: a caller-initiated `disconnect` cancels any pending reconnect timer,
and afterwards no sequence of transport events that does not contain an
explicit `connect` ever constructs a new websocket or re-arms the timer. -/
theorem claim_C9_disconnect_no_resurrect (s : SignalingClient) (evs : List SigEvent)
    (hevs : ∀ e ∈ evs, e ≠ SigEvent.connect) :
    (sigStep s SigEvent.disconnect).reconnectTimer = false ∧
    (sigStep s SigEvent.disconnect).wsCreated = s.wsCreated ∧
    (sigRun (sigStep s SigEvent.disconnect) evs).wsCreated = s.wsCreated ∧
    (sigRun (sigStep s SigEvent.disconnect) evs).reconnectTimer = false := by
  have h := sigRun_after_intentional (sigStep s SigEvent.disconnect) evs rfl rfl hevs
  exact ⟨rfl, rfl, h.1, h.2.1⟩

/-- A transport state with a reconnect armed and one construction so far. -/
def sigPending : SignalingClient :=
  { wsAlive := false
    intentionalClose := false
    reconnectTimer := true
    reconnectAttempts := 2
    wsCreated := 1 }

theorem claim_C9_witness :
    (∀ e ∈ [SigEvent.wsClose, SigEvent.timerFire, SigEvent.wsOpen, SigEvent.timerFire],
        e ≠ SigEvent.connect) ∧
    ((sigStep sigPending SigEvent.disconnect).reconnectTimer = false ∧
     (sigStep sigPending SigEvent.disconnect).wsCreated = sigPending.wsCreated ∧
     (sigRun (sigStep sigPending SigEvent.disconnect)
        [SigEvent.wsClose, SigEvent.timerFire, SigEvent.wsOpen, SigEvent.timerFire]).wsCreated
       = sigPending.wsCreated ∧
     (sigRun (sigStep sigPending SigEvent.disconnect)
        [SigEvent.wsClose, SigEvent.timerFire, SigEvent.wsOpen, SigEvent.timerFire]).reconnectTimer
       = false) :=
  ⟨by decide, claim_C9_disconnect_no_resurrect sigPending
    [SigEvent.wsClose, SigEvent.timerFire, SigEvent.wsOpen, SigEvent.timerFire] (by decide)⟩

/-- Flushing queued candidates does not change the stored remote description. -/
theorem foldl_addIce_remote (l : List String) (pc : RTCPeerConnection) :
    (l.foldl (fun p c => p.addIceCandidate c) pc).remoteDescription
      = pc.remoteDescription := by
  induction l generalizing pc with
  | nil => rfl
  | cons hd tl ih =>
    rw [List.foldl_cons, ih]
    rfl

/-- Flushing queued candidates applies them, in order, after the earlier ones. -/
theorem foldl_addIce_applied (l : List String) (pc : RTCPeerConnection) :
    (l.foldl (fun p c => p.addIceCandidate c) pc).appliedIce = pc.appliedIce ++ l := by
  induction l generalizing pc with
  | nil => simp
  | cons hd tl ih =>
    rw [List.foldl_cons, ih]
    simp [RTCPeerConnection.addIceCandidate]

/-- Specification of the offer branch of `handleSignaling` for an existing
link `conn` with remote peer `src`: the impolite side ignores a colliding
offer outright, the polite side rolls back and accepts, and absent a
collision the offer is accepted directly and answered. -/
def OfferBranchSpec (m : PeerMesh) (src sdp : String) (conn : PeerConn) : Prop :=
  (conn.polite = false →
   (conn.makingOffer || decide (conn.pc.signalingState ≠ SigState.stable)) = true →
     m.handleSignaling (ClientMsg.offer src sdp)
       = (m.setPeer src { conn with ignoreOffer := true }, [])) ∧
  (conn.polite = true →
   (conn.makingOffer || decide (conn.pc.signalingState ≠ SigState.stable)) = true →
     ∃ conn' : PeerConn,
       m.handleSignaling (ClientMsg.offer src sdp)
         = (m.setPeer src conn',
            Effect.rollback :: Effect.setRemote ⟨DescType.offer, sdp⟩ ::
              (conn.pendingIce.map Effect.appliedCandidate ++
               [Effect.setLocal ⟨DescType.answer, mkAnswerSdp sdp⟩,
                Effect.sentAnswer src (mkAnswerSdp sdp)])) ∧
       conn'.pc.remoteDescription = some ⟨DescType.offer, sdp⟩) ∧
  ((conn.makingOffer || decide (conn.pc.signalingState ≠ SigState.stable)) = false →
     ∃ conn' : PeerConn,
       m.handleSignaling (ClientMsg.offer src sdp)
         = (m.setPeer src conn',
            Effect.setRemote ⟨DescType.offer, sdp⟩ ::
              (conn.pendingIce.map Effect.appliedCandidate ++
               [Effect.setLocal ⟨DescType.answer, mkAnswerSdp sdp⟩,
                Effect.sentAnswer src (mkAnswerSdp sdp)])) ∧
       conn'.pc.remoteDescription = some ⟨DescType.offer, sdp⟩)

/-- C1: perfect-negotiation collision handling in the offer branch.  If the
local side is impolite and a collision holds, `ignoreOffer` is set and the
offer is dropped with the remote description untouched and nothing sent; if
polite and colliding, the in-flight local offer is rolled back and the remote
offer accepted; without a collision the offer is accepted directly; in both
accepting cases an answer is generated and sent back to the offerer. -/
theorem claim_C1_offer_collision (m : PeerMesh) (src sdp : String) (conn : PeerConn)
    (h : lookupPeer m.peers src = some conn) :
    OfferBranchSpec m src sdp conn := by
  have hsome : (lookupPeer m.peers src).isSome := by rw [h]; rfl
  have he : m.ensurePeer ⟨src, src⟩ = (m, []) := ensurePeer_of_mem m ⟨src, src⟩ hsome
  refine ⟨?_, ?_, ?_⟩
  · intro hp hc
    have hcd := hc
    simp only [Bool.or_eq_true, decide_eq_true_eq] at hcd
    simp [PeerMesh.handleSignaling, PeerMesh.handleOffer, he, h, hp, hcd]
  · intro hp hc
    have hcd := hc
    simp only [Bool.or_eq_true, decide_eq_true_eq] at hcd
    refine ⟨{ conn with
        pc := (conn.pendingIce.foldl (fun pc c => pc.addIceCandidate c)
          ((conn.pc.rollbackLocal).setRemoteOffer sdp)).setLocalAnswer (mkAnswerSdp sdp),
        ignoreOffer := false, pendingIce := [] }, ?_, ?_⟩
    · simp [PeerMesh.handleSignaling, PeerMesh.handleOffer, he, h, hp, hcd]
    · simp [RTCPeerConnection.setLocalAnswer, foldl_addIce_remote,
            RTCPeerConnection.setRemoteOffer]
  · intro hc
    have hcd := hc
    simp only [Bool.or_eq_true, decide_eq_true_eq, Bool.or_eq_false_iff,
      decide_eq_false_iff_not, not_not] at hcd
    refine ⟨{ conn with
        pc := (conn.pendingIce.foldl (fun pc c => pc.addIceCandidate c)
          (conn.pc.setRemoteOffer sdp)).setLocalAnswer (mkAnswerSdp sdp),
        ignoreOffer := false, pendingIce := [] }, ?_, ?_⟩
    · simp [PeerMesh.handleSignaling, PeerMesh.handleOffer, he, h, hcd.1, hcd.2]
    · simp [RTCPeerConnection.setLocalAnswer, foldl_addIce_remote,
            RTCPeerConnection.setRemoteOffer]

/-- An idle link: stable, no descriptions, impolite, nothing pending. -/
def connIdle : PeerConn :=
  { pc := freshRTCPeerConnection
    hasDataChannel := false
    micAudioSender := none
    screenAudioSender := none
    screenVideoSender := none
    displayName := "b"
    polite := false
    makingOffer := false
    ignoreOffer := false
    pendingIce := []
    needsNegotiation := false }

/-- A one-link mesh holding the idle link for remote peer `"b"`. -/
def meshIdle : PeerMesh :=
  { localPeerId := "z"
    roomId := "room"
    peers := [("b", connIdle)]
    localAudioTrack := none
    localScreenTrack := none
    localScreenAudioTrack := none }

theorem claim_C1_witness :
    lookupPeer meshIdle.peers "b" = some connIdle ∧
    OfferBranchSpec meshIdle "b" "sdp1" connIdle :=
  ⟨rfl, claim_C1_offer_collision meshIdle "b" "sdp1" connIdle rfl⟩

/-- A link that has sent an offer and is awaiting the answer, with one ICE
candidate from the remote side already queued. -/
def connAwaitingAnswer : PeerConn :=
  { pc := freshRTCPeerConnection.setLocalOffer "o1"
    hasDataChannel := true
    micAudioSender := none
    screenAudioSender := none
    screenVideoSender := none
    displayName := "b"
    polite := false
    makingOffer := false
    ignoreOffer := false
    pendingIce := ["cand1"]
    needsNegotiation := false }

/-- A one-link mesh holding `connAwaitingAnswer` for remote peer `"b"`. -/
def meshAwaitingAnswer : PeerMesh :=
  { localPeerId := "z"
    roomId := "room"
    peers := [("b", connAwaitingAnswer)]
    localAudioTrack := none
    localScreenTrack := none
    localScreenAudioTrack := none }

/-- C3 counterexample: a candidate queued before the remote description is
NOT applied when the remote description that arrives is an answer — the
answer branch performs no flush, so after accepting the answer the applied
list is still empty and the candidate is still queued, contradicting the
claim that queued candidates are applied immediately after the remote
description is accepted regardless of it being an offer or an answer. -/
theorem claim_C3_counterexample :
    connAwaitingAnswer.pendingIce = ["cand1"] ∧
    connAwaitingAnswer.pc.remoteDescription = none ∧
    (lookupPeer (meshAwaitingAnswer.handleSignaling (ClientMsg.answer "b" "a1")).1.peers
        "b").map (fun c => (c.pc.remoteDescription.isSome, c.pc.appliedIce, c.pendingIce))
      = some (true, [], ["cand1"]) := by
  decide

/-- Specification of candidate queueing for an existing link `conn` with
remote peer `src`: candidates that arrive before a remote description while
`ignoreOffer` is unset are enqueued in arrival order; candidates that arrive
while `ignoreOffer` is set are dropped; the queue is flushed, in order,
exactly when a remote OFFER is accepted; accepting an answer applies no
queued candidate and leaves the queue as it is. -/
def IceQueueSpec (m : PeerMesh) (src cand sdp : String) (conn : PeerConn) : Prop :=
  (conn.ignoreOffer = false → conn.pc.remoteDescription = none →
     m.handleSignaling (ClientMsg.ice src cand)
       = (m.setPeer src { conn with pendingIce := conn.pendingIce ++ [cand] }, [])) ∧
  (conn.ignoreOffer = true →
     m.handleSignaling (ClientMsg.ice src cand) = (m, [])) ∧
  ((!conn.polite && (conn.makingOffer || decide (conn.pc.signalingState ≠ SigState.stable)))
      = false →
     ∃ conn' : PeerConn, ∃ eff : List Effect,
       m.handleSignaling (ClientMsg.offer src sdp) = (m.setPeer src conn', eff) ∧
       conn'.pc.appliedIce = conn.pc.appliedIce ++ conn.pendingIce ∧
       conn'.pendingIce = []) ∧
  (m.handleSignaling (ClientMsg.answer src sdp)
     = (m.setPeer src { conn with pc := conn.pc.setRemoteAnswer sdp },
        [Effect.setRemote ⟨DescType.answer, sdp⟩]) ∧
   ({ conn with pc := conn.pc.setRemoteAnswer sdp } : PeerConn).pc.appliedIce
     = conn.pc.appliedIce ∧
   ({ conn with pc := conn.pc.setRemoteAnswer sdp } : PeerConn).pendingIce
     = conn.pendingIce)

/-- C3 (amended): pre-description candidates are enqueued only while
`ignoreOffer` is unset (otherwise dropped), and the queue is applied, in
arrival order, immediately after a remote OFFER is accepted; the answer
branch applies no queued candidates. -/
theorem claim_C3_ice_queueing (m : PeerMesh) (src cand sdp : String) (conn : PeerConn)
    (h : lookupPeer m.peers src = some conn) :
    IceQueueSpec m src cand sdp conn := by
  have hsome : (lookupPeer m.peers src).isSome := by rw [h]; rfl
  have he : m.ensurePeer ⟨src, src⟩ = (m, []) := ensurePeer_of_mem m ⟨src, src⟩ hsome
  refine ⟨?_, ?_, ?_, ?_⟩
  · intro hig hrd
    simp [PeerMesh.handleSignaling, PeerMesh.handleIce, h, hig, hrd]
  · intro hig
    simp [PeerMesh.handleSignaling, PeerMesh.handleIce, h, hig]
  · intro hni
    cases hpol : conn.polite with
    | false =>
      have hcoll : (conn.makingOffer || decide (conn.pc.signalingState ≠ SigState.stable))
          = false := by
        rw [hpol] at hni
        simpa using hni
      obtain ⟨hmo, hdec⟩ := Bool.or_eq_false_iff.mp hcoll
      have hst : conn.pc.signalingState = SigState.stable :=
        not_not.mp (of_decide_eq_false hdec)
      refine ⟨{ conn with
          pc := (conn.pendingIce.foldl (fun pc c => pc.addIceCandidate c)
            (conn.pc.setRemoteOffer sdp)).setLocalAnswer (mkAnswerSdp sdp),
          ignoreOffer := false, pendingIce := [] },
        Effect.setRemote ⟨DescType.offer, sdp⟩ ::
            (conn.pendingIce.map Effect.appliedCandidate ++
             [Effect.setLocal ⟨DescType.answer, mkAnswerSdp sdp⟩,
              Effect.sentAnswer src (mkAnswerSdp sdp)]), ?_, ?_, rfl⟩
      · simp [PeerMesh.handleSignaling, PeerMesh.handleOffer, he, h, hmo, hst]
      · simp [RTCPeerConnection.setLocalAnswer, foldl_addIce_applied,
              RTCPeerConnection.setRemoteOffer]
    | true =>
      cases hcolb : (conn.makingOffer || decide (conn.pc.signalingState ≠ SigState.stable)) with
      | true =>
        have hcd : conn.makingOffer = true ∨ ¬ conn.pc.signalingState = SigState.stable := by
          simpa using hcolb
        refine ⟨{ conn with
            pc := (conn.pendingIce.foldl (fun pc c => pc.addIceCandidate c)
              ((conn.pc.rollbackLocal).setRemoteOffer sdp)).setLocalAnswer (mkAnswerSdp sdp),
            ignoreOffer := false, pendingIce := [] },
          Effect.rollback :: Effect.setRemote ⟨DescType.offer, sdp⟩ ::
              (conn.pendingIce.map Effect.appliedCandidate ++
               [Effect.setLocal ⟨DescType.answer, mkAnswerSdp sdp⟩,
                Effect.sentAnswer src (mkAnswerSdp sdp)]), ?_, ?_, rfl⟩
        · simp [PeerMesh.handleSignaling, PeerMesh.handleOffer, he, h, hpol, hcd]
        · simp [RTCPeerConnection.setLocalAnswer, foldl_addIce_applied,
                RTCPeerConnection.setRemoteOffer, RTCPeerConnection.rollbackLocal]
      | false =>
        obtain ⟨hmo, hdec⟩ := Bool.or_eq_false_iff.mp hcolb
        have hst : conn.pc.signalingState = SigState.stable :=
          not_not.mp (of_decide_eq_false hdec)
        refine ⟨{ conn with
            pc := (conn.pendingIce.foldl (fun pc c => pc.addIceCandidate c)
              (conn.pc.setRemoteOffer sdp)).setLocalAnswer (mkAnswerSdp sdp),
            ignoreOffer := false, pendingIce := [] },
          Effect.setRemote ⟨DescType.offer, sdp⟩ ::
            (conn.pendingIce.map Effect.appliedCandidate ++
             [Effect.setLocal ⟨DescType.answer, mkAnswerSdp sdp⟩,
              Effect.sentAnswer src (mkAnswerSdp sdp)]), ?_, ?_, rfl⟩
        · simp [PeerMesh.handleSignaling, PeerMesh.handleOffer, he, h, hmo, hst]
        · simp [RTCPeerConnection.setLocalAnswer, foldl_addIce_applied,
                RTCPeerConnection.setRemoteOffer]
  · refine ⟨?_, rfl, rfl⟩
    simp [PeerMesh.handleSignaling, PeerMesh.handleAnswer, h]

theorem claim_C3_witness :
    lookupPeer meshAwaitingAnswer.peers "b" = some connAwaitingAnswer ∧
    IceQueueSpec meshAwaitingAnswer "b" "cand2" "sdp2" connAwaitingAnswer :=
  ⟨rfl, claim_C3_ice_queueing meshAwaitingAnswer "b" "cand2" "sdp2" connAwaitingAnswer rfl⟩

/-- Number of offers sent in a list of effects. -/
def countOffers (effs : List Effect) : Nat :=
  effs.countP (fun e =>
    match e with
    | Effect.sentOffer _ _ => true
    | _ => false)

/-- Specification of per-slot publish behaviour on one quiescent link:
replacing the track in a populated slot swaps the media via `replaceTrack`
and sends no offer; populating an empty slot or emptying a populated slot
triggers exactly one offer for the link.  Stated for the mic slot (the body
of `setLocalAudioTrack`) and the screen-video slot (the body of
`setLocalScreenMedia`, with the screen-audio slot left empty throughout). -/
def PublishSlotSpec (pid t t0 : String) (conn : PeerConn) : Prop :=
  (conn.micAudioSender = some t0 → t0 ≠ t →
     micPublishStep (some t) pid conn
       = ({ conn with micAudioSender := some t },
          [Effect.replaceTrack SenderSlot.micAudio t])) ∧
  (conn.micAudioSender = none →
     countOffers (micPublishStep (some t) pid conn).2 = 1 ∧
     Effect.addTrack SenderSlot.micAudio t ∈ (micPublishStep (some t) pid conn).2) ∧
  (conn.micAudioSender = some t0 →
     countOffers (micPublishStep none pid conn).2 = 1 ∧
     Effect.removeTrack SenderSlot.micAudio ∈ (micPublishStep none pid conn).2) ∧
  (conn.screenVideoSender = some t0 → t0 ≠ t → conn.screenAudioSender = none →
     screenPublishStep (some t) none pid conn
       = ({ conn with screenVideoSender := some t },
          [Effect.replaceTrack SenderSlot.screenVideo t])) ∧
  (conn.screenVideoSender = none → conn.screenAudioSender = none →
     countOffers (screenPublishStep (some t) none pid conn).2 = 1 ∧
     Effect.addTrack SenderSlot.screenVideo t ∈ (screenPublishStep (some t) none pid conn).2) ∧
  (conn.screenVideoSender = some t0 → conn.screenAudioSender = none →
     countOffers (screenPublishStep none none pid conn).2 = 1 ∧
     Effect.removeTrack SenderSlot.screenVideo ∈ (screenPublishStep none none pid conn).2)

/-- C7: publish semantics per sender slot on a quiescent link (no offer in
flight, stable signaling state): an in-place track replacement uses
`replaceTrack` and produces no offer; adding a track to an empty slot or
removing the track of a populated slot produces exactly one offer. -/
theorem claim_C7_publish_renegotiation (pid t t0 : String) (conn : PeerConn)
    (hm : conn.makingOffer = false) (hs : conn.pc.signalingState = SigState.stable) :
    PublishSlotSpec pid t t0 conn := by
  refine ⟨?_, ?_, ?_, ?_, ?_, ?_⟩
  · intro hsl hne
    simp [micPublishStep, syncMicAudioSender, hsl, hne]
  · intro hsl
    constructor
    · simp [micPublishStep, syncMicAudioSender, hsl, negotiateConn, hm, hs, countOffers]
    · simp [micPublishStep, syncMicAudioSender, hsl, negotiateConn, hm, hs]
  · intro hsl
    constructor
    · simp [micPublishStep, syncMicAudioSender, hsl, negotiateConn, hm, hs, countOffers]
    · simp [micPublishStep, syncMicAudioSender, hsl, negotiateConn, hm, hs]
  · intro hsl hne hsa
    simp [screenPublishStep, syncScreenVideoSender, syncScreenAudioSender, hsl, hsa,
      hne]
  · intro hsl hsa
    constructor
    · simp [screenPublishStep, syncScreenVideoSender, syncScreenAudioSender, hsl, hsa,
        negotiateConn, hm, hs, countOffers]
    · simp [screenPublishStep, syncScreenVideoSender, syncScreenAudioSender, hsl, hsa,
        negotiateConn, hm, hs]
  · intro hsl hsa
    constructor
    · simp [screenPublishStep, syncScreenVideoSender, syncScreenAudioSender, hsl, hsa,
        negotiateConn, hm, hs, countOffers]
    · simp [screenPublishStep, syncScreenVideoSender, syncScreenAudioSender, hsl, hsa,
        negotiateConn, hm, hs]

/-- A quiescent link with the mic and screen-video slots populated. -/
def connPublishing : PeerConn :=
  { pc := freshRTCPeerConnection
    hasDataChannel := true
    micAudioSender := some "mic0"
    screenAudioSender := none
    screenVideoSender := some "mic0"
    displayName := "b"
    polite := true
    makingOffer := false
    ignoreOffer := false
    pendingIce := []
    needsNegotiation := false }

theorem claim_C7_witness :
    connPublishing.makingOffer = false ∧
    connPublishing.pc.signalingState = SigState.stable ∧
    PublishSlotSpec "b" "mic1" "mic0" connPublishing :=
  ⟨rfl, rfl, claim_C7_publish_renegotiation "b" "mic1" "mic0" connPublishing rfl rfl⟩

/-- `find?` commutes with mapping a function that preserves the predicate. -/
theorem find?_map_pred {α : Type} (l : List α) (g : α → α) (p : α → Bool)
    (h : ∀ a, p (g a) = p a) : (l.map g).find? p = (l.find? p).map g := by
  induction l with
  | nil => rfl
  | cons a tl ih =>
    by_cases hp : p a = true
    · have hg : p (g a) = true := by rw [h]; exact hp
      simp [List.find?_cons, hp, hg]
    · have hp' : p a = false := by simpa using hp
      have hg : p (g a) = false := by rw [h]; exact hp'
      simp [List.find?_cons, hp', hg, ih]

/-- `find?` is unchanged by a filter that keeps everything the predicate hits. -/
theorem find?_filter_of_imp {α : Type} (l : List α) (p q : α → Bool)
    (h : ∀ a, p a = true → q a = true) : (l.filter q).find? p = l.find? p := by
  induction l with
  | nil => rfl
  | cons a tl ih =>
    by_cases hq : q a = true
    · by_cases hp : p a = true
      · simp [List.filter_cons, hq, List.find?_cons, hp]
      · have hp' : p a = false := by simpa using hp
        simp [List.filter_cons, hq, List.find?_cons, hp', ih]
    · have hq' : q a = false := by simpa using hq
      have hp' : p a = false := by
        by_contra hc
        exact hq (h a (by simpa using hc))
      simp [List.filter_cons, hq', List.find?_cons, hp', ih]

/-- A found room has the looked-up identifier. -/
theorem getRoom_roomId {s : ServerState} {rid : String} {room : SRoom}
    (h : getRoom s rid = some room) : room.roomId = rid := by
  have := List.find?_some h
  simpa using this

/-- A found client record carries the looked-up peer id. -/
theorem findClient_peerId {s : ServerState} {cid : String} {c : SClient}
    (h : findClient s cid = some c) : c.peerId = cid := by
  have := List.find?_some h
  simpa using this

/-- Storing a room does not disturb lookups of other room ids. -/
theorem getRoom_setRoom_ne (s : ServerState) (room : SRoom) (rid : String)
    (h : room.roomId ≠ rid) : getRoom (setRoom s room) rid = getRoom s rid := by
  unfold getRoom setRoom
  rw [find?_map_pred]
  · cases hf : s.rooms.find? (fun q => q.roomId == rid) with
    | none => rfl
    | some r =>
      have hrid : r.roomId = rid := by simpa using List.find?_some hf
      have hfalse : (r.roomId == room.roomId) = false := by
        rw [hrid]
        exact beq_eq_false_iff_ne.mpr (fun he => h he.symm)
      have hIf : (if r.roomId == room.roomId then room else r) = r := by
        rw [hfalse]
        simp
      show some (if r.roomId == room.roomId then room else r) = some r
      rw [hIf]
  · intro a
    by_cases ha : (a.roomId == room.roomId) = true
    · have haeq : a.roomId = room.roomId := by simpa using ha
      simp only [ha, if_true]
      rw [haeq]
    · have ha' : (a.roomId == room.roomId) = false := by simpa using ha
      simp [ha']

/-- Deleting one room id does not disturb lookups of other room ids. -/
theorem getRoom_deleteRoomIfEmpty_ne (s : ServerState) (rid rid2 : String)
    (h : rid ≠ rid2) : getRoom (deleteRoomIfEmpty s rid) rid2 = getRoom s rid2 := by
  unfold deleteRoomIfEmpty
  cases hf : getRoom s rid with
  | none => rfl
  | some r =>
    by_cases he : r.clients = [] ∧ r.watchers = []
    · simp only [he, and_self, if_true]
      unfold getRoom
      exact find?_filter_of_imp _ _ _ (fun q hq => by
        have : q.roomId = rid2 := by simpa using hq
        simp [this]
        exact fun hc => h hc.symm)
    · simp [he]

/-- Clients are untouched by room-registry operations. -/
theorem findClient_setRoom (s : ServerState) (room : SRoom) (cid : String) :
    findClient (setRoom s room) cid = findClient s cid := rfl

theorem findClient_deleteRoomIfEmpty (s : ServerState) (rid cid : String) :
    findClient (deleteRoomIfEmpty s rid) cid = findClient s cid := by
  unfold deleteRoomIfEmpty
  cases hf : getRoom s rid with
  | none => rfl
  | some r =>
    by_cases he : r.clients = [] ∧ r.watchers = []
    · simp [he]
      rfl
    · simp [he]

theorem getRoom_updateClient (s : ServerState) (cid : String) (f : SClient → SClient)
    (rid : String) : getRoom (updateClient s cid f) rid = getRoom s rid := rfl

/-- Updating the found client record rewrites exactly that record. -/
theorem findClient_updateClient (s : ServerState) (cid : String) (f : SClient → SClient)
    (c : SClient) (hf : ∀ x, (f x).peerId = x.peerId)
    (h : findClient s cid = some c) :
    findClient (updateClient s cid f) cid = some (f c) := by
  unfold findClient updateClient at *
  rw [show (fun c : SClient => if c.peerId == cid then f c else c)
        = (fun c : SClient => if (fun x : SClient => x.peerId == cid) c then f c else c) from rfl]
  rw [find?_map_pred]
  · rw [h]
    have hceq : c.peerId = cid := by simpa using List.find?_some h
    simp [hceq]
  · intro a
    by_cases ha : (a.peerId == cid) = true
    · simp [ha, hf]
    · have : (a.peerId == cid) = false := by simpa using ha
      simp [this]

/-- Specification of the state handler for the client record `c` of caller
`cid`: when the caller is not an active member of the named room (no current
room, current room gone from the registry, or named room different from the
current one) the message is a complete no-op; otherwise the stored
`micOn`/`deafened` are updated and a `peer-state` is sent to every active
participant and watcher of the room except the caller. -/
def StateHandlerSpec (s : ServerState) (cid rid : String) (micOn deafened : Bool)
    (c : SClient) : Prop :=
  ((c.roomId = none ∨
    (∃ crid, c.roomId = some crid ∧ getRoom s crid = none) ∨
    (∃ crid room, c.roomId = some crid ∧ getRoom s crid = some room ∧ rid ≠ room.roomId)) →
     processMessage s cid (CMsg.state rid micOn deafened) = (s, [])) ∧
  (∀ crid room, c.roomId = some crid → getRoom s crid = some room → rid = room.roomId →
     processMessage s cid (CMsg.state rid micOn deafened)
       = (updateClient s cid (fun cl => { cl with micOn := micOn, deafened := deafened }),
          ((roomRecipients room).filter (fun p => p != cid)).map
            (fun p => (p, SMsg.peerState room.roomId cid micOn deafened))))

/-- C8: the state message is silently ignored, with no mutation and no
broadcast, unless the caller is active in the named room; in that case the
caller's stored flags are updated and `peer-state` goes to every other
active participant and watcher of the room. -/
theorem claim_C8_state_noop_guard (s : ServerState) (cid rid : String)
    (micOn deafened : Bool) (c : SClient) (hc : findClient s cid = some c) :
    StateHandlerSpec s cid rid micOn deafened c := by
  constructor
  · intro hcase
    rcases hcase with hnone | ⟨crid, hcrid, hroom⟩ | ⟨crid, room, hcrid, hroom, hne⟩
    · simp [processMessage, stateHandler, hc, hnone]
    · simp [processMessage, stateHandler, hc, hcrid, hroom]
    · simp [processMessage, stateHandler, hc, hcrid, hroom, hne]
  · intro crid room hcrid hroom hrid
    simp [processMessage, stateHandler, hc, hcrid, hroom, hrid]

/-- A server with room `"r"` holding active members `"c1"`, `"c2"` and
watcher `"w1"`, plus an unrelated room `"r2"` with active member `"c3"`. -/
def srvTwoRooms : ServerState :=
  { rooms := [⟨"r", ["c1", "c2"], ["w1"]⟩, ⟨"r2", ["c3"], []⟩]
    clients :=
      [⟨"c1", "Ann", some "r", false, false⟩,
       ⟨"c2", "Ben", some "r", true, false⟩,
       ⟨"w1", "Eve", none, false, false⟩,
       ⟨"c3", "Kim", some "r2", false, false⟩] }

theorem claim_C8_witness :
    findClient srvTwoRooms "c1" = some ⟨"c1", "Ann", some "r", false, false⟩ ∧
    StateHandlerSpec srvTwoRooms "c1" "r2" true false
      ⟨"c1", "Ann", some "r", false, false⟩ :=
  ⟨rfl, claim_C8_state_noop_guard srvTwoRooms "c1" "r2" true false
    ⟨"c1", "Ann", some "r", false, false⟩ rfl⟩

/-- Counting a (recipient, message) predicate over a constant-message fanout
when the predicate rejects that message outright. -/
theorem countP_map_msg_zero (l : List String) (msg : SMsg) (pr : String × SMsg → Bool)
    (h : ∀ x, pr (x, msg) = false) :
    (l.map (fun x => (x, msg))).countP pr = 0 := by
  rw [List.countP_map]
  exact List.countP_eq_zero.mpr (fun a _ => by simp [Function.comp, h a])

/-- Counting a (recipient, message) predicate over a constant-message fanout
when the predicate on that message reduces to a recipient check. -/
theorem countP_map_msg_count (l : List String) (msg : SMsg) (q : String)
    (pr : String × SMsg → Bool) (h : ∀ x, pr (x, msg) = (x == q)) :
    (l.map (fun x => (x, msg))).countP pr = l.count q := by
  rw [List.countP_map]
  rw [show l.count q = l.countP (fun x => x == q) from rfl]
  exact List.countP_congr (fun x _ => by simp [Function.comp, h x])

/-- One-element output lists contribute nothing to a rejected predicate. -/
theorem countP_pair_singleton (x : String × SMsg) (pr : String × SMsg → Bool)
    (h : pr x = false) : ([x] : List (String × SMsg)).countP pr = 0 := by
  simp [List.countP_cons, h]

/-- The summary built for a peer id always carries that peer id. -/
theorem summaryOf_peerId (s : ServerState) (pid : String) :
    (summaryOf s pid).peerId = pid := by
  unfold summaryOf
  cases h : findClient s pid with
  | none => rfl
  | some c => simpa [toPeerSummary] using findClient_peerId h

/-- A member of the active list is counted in the deduplicated recipient list
exactly as in the active list: the watcher tail cannot contribute it again. -/
theorem count_recipients_of_mem (room : SRoom) (p : String) (hp : p ∈ room.clients) :
    (roomRecipients room).count p = room.clients.count p := by
  unfold roomRecipients
  rw [List.count_append]
  have hz : (room.watchers.filter (fun w => !room.clients.contains w)).count p = 0 := by
    rw [List.count_eq_zero]
    intro hmem
    have hfilter := List.of_mem_filter hmem
    have hc : room.clients.contains p = true := List.elem_eq_true_of_mem hp
    simp [hc] at hfilter
    exact hfilter hp
  rw [hz]
  rfl

/-- Filtering by a predicate that holds at `p` preserves `p`'s count. -/
theorem count_filter_of_true (l : List String) (p : String) (f : String → Bool)
    (hf : f p = true) : (l.filter f).count p = l.count p := by
  rw [show (l.filter f).count p = (l.filter f).countP (fun x => x == p) from rfl]
  rw [List.countP_filter]
  rw [show l.count p = l.countP (fun x => x == p) from rfl]
  refine List.countP_congr (fun x _ => ?_)
  by_cases he : x = p
  · subst he
    simp [hf]
  · have hne : (x == p) = false := beq_eq_false_iff_ne.mpr he
    simp [hne]

/-- `Map.set` on a fresh key appends it. -/
theorem insertId_of_not_mem (l : List String) (x : String) (h : x ∉ l) :
    insertId l x = l ++ [x] := by
  unfold insertId
  have hc : l.contains x = false := by
    cases hq : l.contains x
    · rfl
    · exact absurd (List.mem_of_elem_eq_true hq) h
  rw [hc]
  rfl

/-- Explicit form of `leaveCurrentRoom` for a client active in a live room. -/
theorem leaveCurrentRoom_spec (s : ServerState) (cid R1 : String) (c : SClient)
    (room1 : SRoom) (hc : findClient s cid = some c) (hR1 : c.roomId = some R1)
    (hroom1 : getRoom s R1 = some room1) :
    leaveCurrentRoom s cid
      = (deleteRoomIfEmpty
           (updateClient (setRoom s { room1 with clients := room1.clients.erase cid })
             cid (fun cl => { cl with roomId := none })) R1,
         (room1.clients.erase cid).map (fun p => (p, SMsg.peerLeft R1 cid)) ++
           ((roomRecipients { room1 with clients := room1.clients.erase cid }).filter
               (fun p => p != cid)).map (fun p => (p, SMsg.roomPeerLeft R1 cid))) := by
  simp [leaveCurrentRoom, hc, hR1, hroom1]

/-- After leaving, the client's record is still registered, with no room. -/
theorem findClient_after_leave (s : ServerState) (cid R1 : String) (c : SClient)
    (room1 : SRoom) (hc : findClient s cid = some c) (hR1 : c.roomId = some R1)
    (hroom1 : getRoom s R1 = some room1) :
    findClient (leaveCurrentRoom s cid).1 cid = some { c with roomId := none } := by
  rw [leaveCurrentRoom_spec s cid R1 c room1 hc hR1 hroom1]
  rw [findClient_deleteRoomIfEmpty]
  exact findClient_updateClient _ _ _ _ (fun x => rfl)
    (by rw [findClient_setRoom]; exact hc)

/-- Leaving twice in a row: the second leave is a complete no-op. -/
theorem leave_twice_noop (s : ServerState) (cid R1 : String) (c : SClient)
    (room1 : SRoom) (hc : findClient s cid = some c) (hR1 : c.roomId = some R1)
    (hroom1 : getRoom s R1 = some room1) :
    leaveCurrentRoom (leaveCurrentRoom s cid).1 cid = ((leaveCurrentRoom s cid).1, []) := by
  have h2 := findClient_after_leave s cid R1 c room1 hc hR1 hroom1
  generalize hgen : (leaveCurrentRoom s cid).1 = t at h2 ⊢
  simp [leaveCurrentRoom, h2]

/-- Storing a room under an id that is present makes it the lookup result. -/
theorem getRoom_setRoom_self (s : ServerState) (room : SRoom) (rid : String)
    (hr : room.roomId = rid) (h : (getRoom s rid).isSome) :
    getRoom (setRoom s room) rid = some room := by
  unfold getRoom setRoom
  rw [find?_map_pred]
  · cases hf : s.rooms.find? (fun q => q.roomId == rid) with
    | none =>
      rw [getRoom] at h
      rw [hf] at h
      simp at h
    | some r =>
      have hrid : r.roomId = rid := by simpa using List.find?_some hf
      have htrue : (r.roomId == room.roomId) = true := by
        rw [hrid, hr]
        exact beq_self_eq_true rid
      show some (if r.roomId == room.roomId then room else r) = some room
      rw [htrue]
      simp
  · intro a
    by_cases ha : (a.roomId == room.roomId) = true
    · have haeq : a.roomId = room.roomId := by simpa using ha
      simp only [ha, if_true]
      rw [haeq]
    · have ha' : (a.roomId == room.roomId) = false := by simpa using ha
      simp [ha']

/-- Deleting a room that still has a member or a watcher is a no-op. -/
theorem deleteRoomIfEmpty_of_nonempty (s : ServerState) (rid : String) (room : SRoom)
    (h : getRoom s rid = some room) (hne : room.clients ≠ [] ∨ room.watchers ≠ []) :
    deleteRoomIfEmpty s rid = s := by
  unfold deleteRoomIfEmpty
  rw [h]
  have hcond : ¬ (room.clients = [] ∧ room.watchers = []) := by
    rcases hne with h1 | h1
    · exact fun hcw => h1 hcw.1
    · exact fun hcw => h1 hcw.2
  simp [hcond]

/-- Explicit form of the join handler once the target room's lookup in the
post-leave state is known: the output is the leave notifications followed by
the membership snapshot for the caller and the two join fanouts. -/
theorem joinHandler_out (s : ServerState) (cid R2 name : String) (room2 : SRoom)
    (hG : getRoom (updateClient (leaveCurrentRoom s cid).1 cid
        (fun cl => { cl with displayName := name, roomId := some R2 })) R2 = some room2) :
    joinHandler s cid R2 name
      = (setRoom
           (updateClient (leaveCurrentRoom s cid).1 cid
             (fun cl => { cl with displayName := name, roomId := some R2 }))
           { room2 with clients := insertId room2.clients cid },
         (leaveCurrentRoom s cid).2 ++
           ([(cid, SMsg.peersMsg R2
               (((insertId room2.clients cid).filter (fun p => p != cid)).map
                 (summaryOf (setRoom
                   (updateClient (leaveCurrentRoom s cid).1 cid
                     (fun cl => { cl with displayName := name, roomId := some R2 }))
                   { room2 with clients := insertId room2.clients cid }))))] ++
            ((insertId room2.clients cid).filter (fun p => p != cid)).map
              (fun p => (p, SMsg.peerJoined R2
                (summaryOf (setRoom
                   (updateClient (leaveCurrentRoom s cid).1 cid
                     (fun cl => { cl with displayName := name, roomId := some R2 }))
                   { room2 with clients := insertId room2.clients cid }) cid))) ++
            ((roomRecipients { room2 with clients := insertId room2.clients cid }).filter
                (fun p => p != cid)).map
              (fun p => (p, SMsg.roomPeerJoined R2
                (summaryOf (setRoom
                   (updateClient (leaveCurrentRoom s cid).1 cid
                     (fun cl => { cl with displayName := name, roomId := some R2 }))
                   { room2 with clients := insertId room2.clients cid }) cid))))) := by
  simp only [joinHandler, getOrCreateRoom, hG]
  simp [List.append_assoc]

/-- Rooms other than the one being left are untouched by a leave. -/
theorem getRoom_after_leave_ne (s : ServerState) (cid R1 R2 : String) (c : SClient)
    (room1 : SRoom) (f : SClient → SClient) (hc : findClient s cid = some c)
    (hR1 : c.roomId = some R1) (hroom1 : getRoom s R1 = some room1) (hne : R1 ≠ R2) :
    getRoom (updateClient (leaveCurrentRoom s cid).1 cid f) R2 = getRoom s R2 := by
  rw [getRoom_updateClient]
  rw [leaveCurrentRoom_spec s cid R1 c room1 hc hR1 hroom1]
  rw [getRoom_deleteRoomIfEmpty_ne _ _ _ hne]
  rw [getRoom_updateClient]
  rw [getRoom_setRoom_ne]
  rw [show ({ room1 with clients := room1.clients.erase cid } : SRoom).roomId
       = room1.roomId from rfl]
  rw [getRoom_roomId hroom1]
  exact hne

/-- Recogniser for a `peer-joined` notification about `cid` in room `rid`. -/
def isPeerJoinedFor (rid cid : String) : SMsg → Bool
  | SMsg.peerJoined r p => r == rid && p.peerId == cid
  | _ => false

/-- Recogniser for a `room-peer-joined` notification about `cid` in `rid`. -/
def isRoomPeerJoinedFor (rid cid : String) : SMsg → Bool
  | SMsg.roomPeerJoined r p => r == rid && p.peerId == cid
  | _ => false

/-- Specification of a join into `R2` by a client active in `R1`: it equals
an explicit leave followed by the same join (same final state, concatenated
outputs), every remaining active peer of `R1` gets exactly one `peer-left`
and one `room-peer-left` for the client, and every active peer of `R2` gets
exactly one `peer-joined` and one `room-peer-joined` for the client. -/
def JoinSwitchSpec (s : ServerState) (cid R1 R2 name : String)
    (room1 room2 : SRoom) : Prop :=
  (processMessage s cid (CMsg.join R2 name)
    = ((processMessage (processMessage s cid CMsg.leave).1 cid (CMsg.join R2 name)).1,
       (processMessage s cid CMsg.leave).2 ++
         (processMessage (processMessage s cid CMsg.leave).1 cid (CMsg.join R2 name)).2)) ∧
  (∀ p, p ∈ room1.clients → p ≠ cid →
     ((processMessage s cid (CMsg.join R2 name)).2.countP
         (fun o => o.1 == p && o.2 == SMsg.peerLeft R1 cid) = 1 ∧
      (processMessage s cid (CMsg.join R2 name)).2.countP
         (fun o => o.1 == p && o.2 == SMsg.roomPeerLeft R1 cid) = 1)) ∧
  (∀ q, q ∈ room2.clients →
     ((processMessage s cid (CMsg.join R2 name)).2.countP
         (fun o => o.1 == q && isPeerJoinedFor R2 cid o.2) = 1 ∧
      (processMessage s cid (CMsg.join R2 name)).2.countP
         (fun o => o.1 == q && isRoomPeerJoinedFor R2 cid o.2) = 1))

/-- C5: joining a new room while active in another is observationally the
leave followed by the join, with exactly one leave notification per
remaining old-room peer and exactly one join notification per new-room peer. -/
theorem claim_C5_join_switches_room (s : ServerState) (cid R1 R2 name : String)
    (c : SClient) (room1 room2 : SRoom)
    (hc : findClient s cid = some c) (hR1 : c.roomId = some R1)
    (hroom1 : getRoom s R1 = some room1) (hroom2 : getRoom s R2 = some room2)
    (hne : R1 ≠ R2) (hnd1 : room1.clients.Nodup) (hnd2 : room2.clients.Nodup)
    (hcid2 : cid ∉ room2.clients) :
    JoinSwitchSpec s cid R1 R2 name room1 room2 := by
  have hG : getRoom (updateClient (leaveCurrentRoom s cid).1 cid
      (fun cl => { cl with displayName := name, roomId := some R2 })) R2 = some room2 := by
    rw [getRoom_after_leave_ne s cid R1 R2 c room1 _ hc hR1 hroom1 hne]
    exact hroom2
  have hout := joinHandler_out s cid R2 name room2 hG
  have hleave := leaveCurrentRoom_spec s cid R1 c room1 hc hR1 hroom1
  have hnoop := leave_twice_noop s cid R1 c room1 hc hR1 hroom1
  have hins : insertId room2.clients cid = room2.clients ++ [cid] :=
    insertId_of_not_mem _ _ hcid2
  refine ⟨?_, ?_, ?_⟩
  · -- observational equivalence with leave-then-join
    have hG' : getRoom (updateClient
        (leaveCurrentRoom (leaveCurrentRoom s cid).1 cid).1 cid
        (fun cl => { cl with displayName := name, roomId := some R2 })) R2 = some room2 := by
      rw [hnoop]
      exact hG
    have hout' := joinHandler_out (leaveCurrentRoom s cid).1 cid R2 name room2 hG'
    rw [hnoop] at hout'
    simp only [processMessage]
    rw [hout, hout']
    simp
  · -- exactly one peer-left and room-peer-left per remaining old-room peer
    intro p hp hpne
    have hbne : (p != cid) = true := by simpa using hpne
    have hmemE : p ∈ room1.clients.erase cid := (List.mem_erase_of_ne hpne).mpr hp
    have hcountE : (room1.clients.erase cid).count p = 1 := by
      rw [List.count_erase_of_ne hpne]
      exact List.count_eq_one_of_mem hnd1 hp
    have hrec : ((roomRecipients { room1 with clients := room1.clients.erase cid }).filter
        (fun x => x != cid)).count p = 1 := by
      rw [count_filter_of_true _ p (fun x => x != cid) hbne]
      rw [count_recipients_of_mem _ _ hmemE]
      exact hcountE
    constructor
    · have cPL : ∀ (l : List String),
          (l.map (fun x => (x, SMsg.peerLeft R1 cid))).countP
            (fun o => o.1 == p && o.2 == SMsg.peerLeft R1 cid) = l.count p :=
        fun l => countP_map_msg_count l _ p _ (fun x => by simp)
      have zRPL : ∀ (l : List String) (r c2 : String),
          (l.map (fun x => (x, SMsg.roomPeerLeft r c2))).countP
            (fun o => o.1 == p && o.2 == SMsg.peerLeft R1 cid) = 0 :=
        fun l r c2 => countP_map_msg_zero l _ _ (fun x => by simp)
      have zPJ : ∀ (l : List String) (r : String) (ps : PeerSummary),
          (l.map (fun x => (x, SMsg.peerJoined r ps))).countP
            (fun o => o.1 == p && o.2 == SMsg.peerLeft R1 cid) = 0 :=
        fun l r ps => countP_map_msg_zero l _ _ (fun x => by simp)
      have zRPJ : ∀ (l : List String) (r : String) (ps : PeerSummary),
          (l.map (fun x => (x, SMsg.roomPeerJoined r ps))).countP
            (fun o => o.1 == p && o.2 == SMsg.peerLeft R1 cid) = 0 :=
        fun l r ps => countP_map_msg_zero l _ _ (fun x => by simp)
      simp only [processMessage]
      rw [hout, hleave]
      simp only [List.countP_append]
      rw [cPL, zRPL, zPJ, zRPJ, countP_pair_singleton _ _ (by simp), hcountE]
    · have cRPL : ∀ (l : List String),
          (l.map (fun x => (x, SMsg.roomPeerLeft R1 cid))).countP
            (fun o => o.1 == p && o.2 == SMsg.roomPeerLeft R1 cid) = l.count p :=
        fun l => countP_map_msg_count l _ p _ (fun x => by simp)
      have zPL : ∀ (l : List String) (r c2 : String),
          (l.map (fun x => (x, SMsg.peerLeft r c2))).countP
            (fun o => o.1 == p && o.2 == SMsg.roomPeerLeft R1 cid) = 0 :=
        fun l r c2 => countP_map_msg_zero l _ _ (fun x => by simp)
      have zPJ : ∀ (l : List String) (r : String) (ps : PeerSummary),
          (l.map (fun x => (x, SMsg.peerJoined r ps))).countP
            (fun o => o.1 == p && o.2 == SMsg.roomPeerLeft R1 cid) = 0 :=
        fun l r ps => countP_map_msg_zero l _ _ (fun x => by simp)
      have zRPJ : ∀ (l : List String) (r : String) (ps : PeerSummary),
          (l.map (fun x => (x, SMsg.roomPeerJoined r ps))).countP
            (fun o => o.1 == p && o.2 == SMsg.roomPeerLeft R1 cid) = 0 :=
        fun l r ps => countP_map_msg_zero l _ _ (fun x => by simp)
      simp only [processMessage]
      rw [hout, hleave]
      simp only [List.countP_append]
      rw [cRPL, zPL, zPJ, zRPJ, countP_pair_singleton _ _ (by simp), hrec]
  · -- exactly one peer-joined and room-peer-joined per new-room peer
    intro q hq
    have hqne : q ≠ cid := fun he => hcid2 (he ▸ hq)
    have hqbne : (q != cid) = true := by simpa using hqne
    have hzq : ([cid] : List String).count q = 0 :=
      List.count_eq_zero.mpr (by simp [hqne])
    have hcount2 : (room2.clients ++ [cid]).count q = 1 := by
      rw [List.count_append, hzq, List.count_eq_one_of_mem hnd2 hq]
    constructor
    · have cJ : ∀ (l : List String) (ps : PeerSummary), ps.peerId = cid →
          (l.map (fun x => (x, SMsg.peerJoined R2 ps))).countP
            (fun o => o.1 == q && isPeerJoinedFor R2 cid o.2) = l.count q :=
        fun l ps hps => countP_map_msg_count l _ q _
          (fun x => by simp [isPeerJoinedFor, hps])
      have zPL : ∀ (l : List String) (r c2 : String),
          (l.map (fun x => (x, SMsg.peerLeft r c2))).countP
            (fun o => o.1 == q && isPeerJoinedFor R2 cid o.2) = 0 :=
        fun l r c2 => countP_map_msg_zero l _ _ (fun x => by simp [isPeerJoinedFor])
      have zRPL : ∀ (l : List String) (r c2 : String),
          (l.map (fun x => (x, SMsg.roomPeerLeft r c2))).countP
            (fun o => o.1 == q && isPeerJoinedFor R2 cid o.2) = 0 :=
        fun l r c2 => countP_map_msg_zero l _ _ (fun x => by simp [isPeerJoinedFor])
      have zRPJ : ∀ (l : List String) (r : String) (ps : PeerSummary),
          (l.map (fun x => (x, SMsg.roomPeerJoined r ps))).countP
            (fun o => o.1 == q && isPeerJoinedFor R2 cid o.2) = 0 :=
        fun l r ps => countP_map_msg_zero l _ _ (fun x => by simp [isPeerJoinedFor])
      simp only [processMessage]
      rw [hout, hleave]
      simp only [List.countP_append]
      rw [zPL, zRPL, zRPJ, countP_pair_singleton _ _ (by simp [isPeerJoinedFor])]
      rw [cJ _ _ (summaryOf_peerId _ cid)]
      rw [hins, count_filter_of_true _ q (fun x => x != cid) hqbne, hcount2]
    · have cRJ : ∀ (l : List String) (ps : PeerSummary), ps.peerId = cid →
          (l.map (fun x => (x, SMsg.roomPeerJoined R2 ps))).countP
            (fun o => o.1 == q && isRoomPeerJoinedFor R2 cid o.2) = l.count q :=
        fun l ps hps => countP_map_msg_count l _ q _
          (fun x => by simp [isRoomPeerJoinedFor, hps])
      have zPL : ∀ (l : List String) (r c2 : String),
          (l.map (fun x => (x, SMsg.peerLeft r c2))).countP
            (fun o => o.1 == q && isRoomPeerJoinedFor R2 cid o.2) = 0 :=
        fun l r c2 => countP_map_msg_zero l _ _ (fun x => by simp [isRoomPeerJoinedFor])
      have zRPL : ∀ (l : List String) (r c2 : String),
          (l.map (fun x => (x, SMsg.roomPeerLeft r c2))).countP
            (fun o => o.1 == q && isRoomPeerJoinedFor R2 cid o.2) = 0 :=
        fun l r c2 => countP_map_msg_zero l _ _ (fun x => by simp [isRoomPeerJoinedFor])
      have zPJ : ∀ (l : List String) (r : String) (ps : PeerSummary),
          (l.map (fun x => (x, SMsg.peerJoined r ps))).countP
            (fun o => o.1 == q && isRoomPeerJoinedFor R2 cid o.2) = 0 :=
        fun l r ps => countP_map_msg_zero l _ _ (fun x => by simp [isRoomPeerJoinedFor])
      simp only [processMessage]
      rw [hout, hleave]
      simp only [List.countP_append]
      rw [zPL, zRPL, zPJ, countP_pair_singleton _ _ (by simp [isRoomPeerJoinedFor])]
      rw [cRJ _ _ (summaryOf_peerId _ cid)]
      rw [hins]
      rw [count_filter_of_true _ q (fun x => x != cid) hqbne]
      rw [count_recipients_of_mem _ _ (List.mem_append_left _ hq)]
      simpa using hcount2

/-- A server with client `"a"` active in room `"r1"` (alongside `"p1"`) and
room `"r2"` holding only `"q1"`. -/
def srvJoin : ServerState :=
  { rooms := [⟨"r1", ["a", "p1"], []⟩, ⟨"r2", ["q1"], []⟩]
    clients :=
      [⟨"a", "A", some "r1", false, false⟩,
       ⟨"p1", "P", some "r1", true, false⟩,
       ⟨"q1", "Q", some "r2", false, true⟩] }

theorem claim_C5_witness :
    findClient srvJoin "a" = some ⟨"a", "A", some "r1", false, false⟩ ∧
    getRoom srvJoin "r1" = some ⟨"r1", ["a", "p1"], []⟩ ∧
    getRoom srvJoin "r2" = some ⟨"r2", ["q1"], []⟩ ∧
    ("r1" : String) ≠ "r2" ∧
    (["a", "p1"] : List String).Nodup ∧
    (["q1"] : List String).Nodup ∧
    ("a" : String) ∉ (["q1"] : List String) ∧
    JoinSwitchSpec srvJoin "a" "r1" "r2" "A2" ⟨"r1", ["a", "p1"], []⟩ ⟨"r2", ["q1"], []⟩ :=
  ⟨rfl, rfl, rfl, by decide, by decide, by decide, by decide,
   claim_C5_join_switches_room srvJoin "a" "r1" "r2" "A2"
     ⟨"a", "A", some "r1", false, false⟩ ⟨"r1", ["a", "p1"], []⟩ ⟨"r2", ["q1"], []⟩
     rfl rfl rfl rfl (by decide) (by decide) (by decide) (by decide)⟩

/-- After leaving a room that still has other members, the room survives
with exactly the leaver erased. -/
theorem getRoom_after_leave_same (s : ServerState) (cid R : String) (c : SClient)
    (room1 : SRoom) (f : SClient → SClient) (hc : findClient s cid = some c)
    (hR : c.roomId = some R) (hroom : getRoom s R = some room1)
    (hne : room1.clients.erase cid ≠ []) :
    getRoom (updateClient (leaveCurrentRoom s cid).1 cid f) R
      = some { room1 with clients := room1.clients.erase cid } := by
  rw [getRoom_updateClient]
  rw [leaveCurrentRoom_spec s cid R c room1 hc hR hroom]
  have hself : getRoom (updateClient
      (setRoom s { room1 with clients := room1.clients.erase cid })
      cid (fun cl => { cl with roomId := none })) R
      = some { room1 with clients := room1.clients.erase cid } := by
    rw [getRoom_updateClient]
    exact getRoom_setRoom_self s _ R (by have hid := getRoom_roomId hroom; exact hid) (by rw [hroom]; rfl)
  rw [deleteRoomIfEmpty_of_nonempty _ _ _ hself (Or.inl hne)]
  exact hself

/-- Specification of a join into the room the caller is already active in:
not a no-op.  The output starts with the removal notifications, every other
member receives exactly one `peer-left`, one `room-peer-left` and one
`peer-joined` for the caller, the caller ends up registered in the room
again, and the membership list returned to the caller excludes the caller. -/
def RejoinSpec (s : ServerState) (cid R name : String) (room : SRoom) : Prop :=
  (∃ rest, (processMessage s cid (CMsg.join R name)).2
     = (room.clients.erase cid).map (fun x => (x, SMsg.peerLeft R cid)) ++ rest) ∧
  (∀ p, p ∈ room.clients → p ≠ cid →
     ((processMessage s cid (CMsg.join R name)).2.countP
        (fun o => o.1 == p && o.2 == SMsg.peerLeft R cid) = 1 ∧
      (processMessage s cid (CMsg.join R name)).2.countP
        (fun o => o.1 == p && o.2 == SMsg.roomPeerLeft R cid) = 1 ∧
      (processMessage s cid (CMsg.join R name)).2.countP
        (fun o => o.1 == p && isPeerJoinedFor R cid o.2) = 1)) ∧
  (∃ room', getRoom (processMessage s cid (CMsg.join R name)).1 R = some room' ∧
     cid ∈ room'.clients) ∧
  (∃ L, (cid, SMsg.peersMsg R L) ∈ (processMessage s cid (CMsg.join R name)).2 ∧
     ∀ ps ∈ L, ps.peerId ≠ cid)

/-- C10: rejoining the current room removes the caller (with leave
notifications to every other member), then re-registers it (with join
notifications), and the returned peers list excludes the caller. -/
theorem claim_C10_rejoin_not_noop (s : ServerState) (cid R name : String)
    (c : SClient) (room : SRoom)
    (hc : findClient s cid = some c) (hR : c.roomId = some R)
    (hroom : getRoom s R = some room) (hmem : cid ∈ room.clients)
    (hnd : room.clients.Nodup) (hother : ∃ p, p ∈ room.clients ∧ p ≠ cid) :
    RejoinSpec s cid R name room := by
  obtain ⟨p0, hp0, hp0ne⟩ := hother
  have hmemE0 : p0 ∈ room.clients.erase cid := (List.mem_erase_of_ne hp0ne).mpr hp0
  have heraseNe : room.clients.erase cid ≠ [] := List.ne_nil_of_mem hmemE0
  have hG : getRoom (updateClient (leaveCurrentRoom s cid).1 cid
      (fun cl => { cl with displayName := name, roomId := some R })) R
      = some { room with clients := room.clients.erase cid } :=
    getRoom_after_leave_same s cid R c room _ hc hR hroom heraseNe
  have hout := joinHandler_out s cid R name { room with clients := room.clients.erase cid } hG
  have hleave := leaveCurrentRoom_spec s cid R c room hc hR hroom
  have hcidE : cid ∉ room.clients.erase cid := hnd.not_mem_erase
  have hins : insertId ({ room with clients := room.clients.erase cid } : SRoom).clients cid
      = room.clients.erase cid ++ [cid] :=
    insertId_of_not_mem _ _ hcidE
  refine ⟨?_, ?_, ?_, ?_⟩
  · -- output starts with the peer-left fanout
    simp only [processMessage]
    rw [hout, hleave]
    exact ⟨_, List.append_assoc _ _ _⟩
  · intro p hp hpne
    have hbne : (p != cid) = true := by simpa using hpne
    have hmemE : p ∈ room.clients.erase cid := (List.mem_erase_of_ne hpne).mpr hp
    have hcountE : (room.clients.erase cid).count p = 1 := by
      rw [List.count_erase_of_ne hpne]
      exact List.count_eq_one_of_mem hnd hp
    have hzp : ([cid] : List String).count p = 0 :=
      List.count_eq_zero.mpr (by simp [hpne])
    have hrec : ((roomRecipients { room with clients := room.clients.erase cid }).filter
        (fun x => x != cid)).count p = 1 := by
      rw [count_filter_of_true _ p (fun x => x != cid) hbne]
      rw [count_recipients_of_mem _ _ hmemE]
      exact hcountE
    refine ⟨?_, ?_, ?_⟩
    · have cPL : ∀ (l : List String),
          (l.map (fun x => (x, SMsg.peerLeft R cid))).countP
            (fun o => o.1 == p && o.2 == SMsg.peerLeft R cid) = l.count p :=
        fun l => countP_map_msg_count l _ p _ (fun x => by simp)
      have zRPL : ∀ (l : List String) (r c2 : String),
          (l.map (fun x => (x, SMsg.roomPeerLeft r c2))).countP
            (fun o => o.1 == p && o.2 == SMsg.peerLeft R cid) = 0 :=
        fun l r c2 => countP_map_msg_zero l _ _ (fun x => by simp)
      have zPJ : ∀ (l : List String) (r : String) (ps : PeerSummary),
          (l.map (fun x => (x, SMsg.peerJoined r ps))).countP
            (fun o => o.1 == p && o.2 == SMsg.peerLeft R cid) = 0 :=
        fun l r ps => countP_map_msg_zero l _ _ (fun x => by simp)
      have zRPJ : ∀ (l : List String) (r : String) (ps : PeerSummary),
          (l.map (fun x => (x, SMsg.roomPeerJoined r ps))).countP
            (fun o => o.1 == p && o.2 == SMsg.peerLeft R cid) = 0 :=
        fun l r ps => countP_map_msg_zero l _ _ (fun x => by simp)
      simp only [processMessage]
      rw [hout, hleave]
      simp only [List.countP_append]
      rw [cPL, zRPL, zPJ, zRPJ, countP_pair_singleton _ _ (by simp), hcountE]
    · have cRPL : ∀ (l : List String),
          (l.map (fun x => (x, SMsg.roomPeerLeft R cid))).countP
            (fun o => o.1 == p && o.2 == SMsg.roomPeerLeft R cid) = l.count p :=
        fun l => countP_map_msg_count l _ p _ (fun x => by simp)
      have zPL : ∀ (l : List String) (r c2 : String),
          (l.map (fun x => (x, SMsg.peerLeft r c2))).countP
            (fun o => o.1 == p && o.2 == SMsg.roomPeerLeft R cid) = 0 :=
        fun l r c2 => countP_map_msg_zero l _ _ (fun x => by simp)
      have zPJ : ∀ (l : List String) (r : String) (ps : PeerSummary),
          (l.map (fun x => (x, SMsg.peerJoined r ps))).countP
            (fun o => o.1 == p && o.2 == SMsg.roomPeerLeft R cid) = 0 :=
        fun l r ps => countP_map_msg_zero l _ _ (fun x => by simp)
      have zRPJ : ∀ (l : List String) (r : String) (ps : PeerSummary),
          (l.map (fun x => (x, SMsg.roomPeerJoined r ps))).countP
            (fun o => o.1 == p && o.2 == SMsg.roomPeerLeft R cid) = 0 :=
        fun l r ps => countP_map_msg_zero l _ _ (fun x => by simp)
      simp only [processMessage]
      rw [hout, hleave]
      simp only [List.countP_append]
      rw [cRPL, zPL, zPJ, zRPJ, countP_pair_singleton _ _ (by simp), hrec]
    · have cJ : ∀ (l : List String) (ps : PeerSummary), ps.peerId = cid →
          (l.map (fun x => (x, SMsg.peerJoined R ps))).countP
            (fun o => o.1 == p && isPeerJoinedFor R cid o.2) = l.count p :=
        fun l ps hps => countP_map_msg_count l _ p _
          (fun x => by simp [isPeerJoinedFor, hps])
      have zPL : ∀ (l : List String) (r c2 : String),
          (l.map (fun x => (x, SMsg.peerLeft r c2))).countP
            (fun o => o.1 == p && isPeerJoinedFor R cid o.2) = 0 :=
        fun l r c2 => countP_map_msg_zero l _ _ (fun x => by simp [isPeerJoinedFor])
      have zRPL : ∀ (l : List String) (r c2 : String),
          (l.map (fun x => (x, SMsg.roomPeerLeft r c2))).countP
            (fun o => o.1 == p && isPeerJoinedFor R cid o.2) = 0 :=
        fun l r c2 => countP_map_msg_zero l _ _ (fun x => by simp [isPeerJoinedFor])
      have zRPJ : ∀ (l : List String) (r : String) (ps : PeerSummary),
          (l.map (fun x => (x, SMsg.roomPeerJoined r ps))).countP
            (fun o => o.1 == p && isPeerJoinedFor R cid o.2) = 0 :=
        fun l r ps => countP_map_msg_zero l _ _ (fun x => by simp [isPeerJoinedFor])
      simp only [processMessage]
      rw [hout, hleave]
      simp only [List.countP_append]
      rw [zPL, zRPL, zRPJ, countP_pair_singleton _ _ (by simp [isPeerJoinedFor])]
      rw [cJ _ _ (summaryOf_peerId _ cid)]
      rw [hins, count_filter_of_true _ p (fun x => x != cid) hbne]
      rw [List.count_append, hzp, hcountE]
  · -- the caller is re-registered in the room
    refine ⟨{ { room with clients := room.clients.erase cid } with
        clients := insertId ({ room with clients := room.clients.erase cid } : SRoom).clients cid },
      ?_, ?_⟩
    · simp only [processMessage]
      rw [hout]
      exact getRoom_setRoom_self _ _ R (by have hid := getRoom_roomId hroom; exact hid) (by rw [hG]; rfl)
    · rw [hins]
      exact List.mem_append_right _ (by simp)
  · -- the peers list sent back to the caller has no entry for the caller
    refine ⟨((insertId ({ room with clients := room.clients.erase cid } : SRoom).clients
          cid).filter (fun p => p != cid)).map
        (summaryOf (setRoom
          (updateClient (leaveCurrentRoom s cid).1 cid
            (fun cl => { cl with displayName := name, roomId := some R }))
          { ({ room with clients := room.clients.erase cid } : SRoom) with
              clients := insertId
                ({ room with clients := room.clients.erase cid } : SRoom).clients cid })),
      ?_, ?_⟩
    · simp only [processMessage]
      rw [hout]
      refine List.mem_append_right _ ?_
      refine List.mem_append_left _ ?_
      refine List.mem_append_left _ ?_
      exact List.mem_singleton.mpr rfl
    · intro ps hps
      obtain ⟨y, hy, hyeq⟩ := List.mem_map.mp hps
      have hyne : y ≠ cid := by
        have := List.of_mem_filter hy
        simpa using this
      rw [← hyeq]
      rw [summaryOf_peerId]
      exact hyne

theorem claim_C10_witness :
    findClient srvJoin "a" = some ⟨"a", "A", some "r1", false, false⟩ ∧
    getRoom srvJoin "r1" = some ⟨"r1", ["a", "p1"], []⟩ ∧
    ("a" : String) ∈ (["a", "p1"] : List String) ∧
    (["a", "p1"] : List String).Nodup ∧
    (∃ p, p ∈ (["a", "p1"] : List String) ∧ p ≠ "a") ∧
    RejoinSpec srvJoin "a" "r1" "A2" ⟨"r1", ["a", "p1"], []⟩ :=
  ⟨rfl, rfl, by decide, by decide, ⟨"p1", by decide, by decide⟩,
   claim_C10_rejoin_not_noop srvJoin "a" "r1" "A2"
     ⟨"a", "A", some "r1", false, false⟩ ⟨"r1", ["a", "p1"], []⟩
     rfl rfl rfl (by decide) (by decide) ⟨"p1", by decide, by decide⟩⟩

/-- The room-registry invariant on a list of rooms: every registered room has
at least one active participant or watcher. -/
def RoomsInv (rooms : List SRoom) : Prop :=
  ∀ room ∈ rooms, room.clients ≠ [] ∨ room.watchers ≠ []

/-- The registry invariant of a server state. -/
def RegistryInv (s : ServerState) : Prop := RoomsInv s.rooms

/-- The identifiers currently present in the registry. -/
def roomIds (s : ServerState) : List String := s.rooms.map (fun r => r.roomId)

/-- Room `rid` is registered and every registered copy of it contains `m` as
an active participant or watcher. -/
def HasMember (s : ServerState) (rid m : String) : Prop :=
  rid ∈ roomIds s ∧
  ∀ room ∈ s.rooms, room.roomId = rid → (m ∈ room.clients ∨ m ∈ room.watchers)

/-- `deleteRoomIfEmpty` looks only at the room registry. -/
theorem rooms_deleteRoomIfEmpty_congr (X Y : ServerState) (rid : String)
    (h : X.rooms = Y.rooms) :
    (deleteRoomIfEmpty X rid).rooms = (deleteRoomIfEmpty Y rid).rooms := by
  unfold deleteRoomIfEmpty getRoom
  rw [h]
  cases Y.rooms.find? (fun r => r.roomId == rid) with
  | none => exact h
  | some r =>
    by_cases he : r.clients = [] ∧ r.watchers = []
    · simp [he, h]
    · simp [he, h]

/-- Deletion never introduces an invariant violation. -/
theorem RoomsInv_deleteRoomIfEmpty (s : ServerState) (rid : String)
    (h : RegistryInv s) : RegistryInv (deleteRoomIfEmpty s rid) := by
  unfold RegistryInv RoomsInv at *
  unfold deleteRoomIfEmpty
  cases hg : getRoom s rid with
  | none => exact h
  | some r =>
    by_cases he : r.clients = [] ∧ r.watchers = []
    · simp only [he, and_self, if_true]
      intro room hmem
      exact h room (List.mem_of_mem_filter hmem)
    · simp only [he, if_false]
      exact h

/-- Storing a nonempty room preserves the invariant for every room whose id
differs; rooms with the stored id all become the stored room. -/
theorem RoomsInv_setRoom (s : ServerState) (room : SRoom)
    (hInv : ∀ r ∈ s.rooms, r.roomId ≠ room.roomId → (r.clients ≠ [] ∨ r.watchers ≠ []))
    (hne : room.clients ≠ [] ∨ room.watchers ≠ []) :
    RegistryInv (setRoom s room) := by
  intro r' hr'
  obtain ⟨r, hrmem, hreq⟩ := List.mem_map.mp hr'
  by_cases hid : (r.roomId == room.roomId) = true
  · rw [← hreq]
    simp only [hid, if_true]
    exact hne
  · have hid' : (r.roomId == room.roomId) = false := by simpa using hid
    rw [← hreq]
    simp only [hid', Bool.false_eq_true, if_false]
    exact hInv r hrmem (by simpa using hid')

/-- In `setRoom s room`, the only rooms carrying the stored id are copies of
the stored room. -/
theorem setRoom_unique (s : ServerState) (room : SRoom) :
    ∀ x ∈ (setRoom s room).rooms, x.roomId = room.roomId → x = room := by
  intro x hx hid
  obtain ⟨r, hrmem, hreq⟩ := List.mem_map.mp hx
  by_cases hcase : (r.roomId == room.roomId) = true
  · rw [← hreq]
    simp [hcase]
  · have hcase' : (r.roomId == room.roomId) = false := by simpa using hcase
    rw [← hreq] at hid
    simp only [hcase', Bool.false_eq_true, if_false] at hid
    exact absurd hid (by simpa using hcase')

/-- Storing a room (of its own id) and then running the emptiness check
preserves the registry invariant, whether or not the room became empty. -/
theorem RoomsInv_setRoom_then_delete (s : ServerState) (room : SRoom) (rid : String)
    (hrid : room.roomId = rid) (hInv : RegistryInv s) :
    RegistryInv (deleteRoomIfEmpty (setRoom s room) rid) := by
  by_cases hempty : room.clients = [] ∧ room.watchers = []
  · -- the stored room is empty: every surviving room is an original one
    unfold RegistryInv RoomsInv
    unfold deleteRoomIfEmpty
    cases hg : getRoom (setRoom s room) rid with
    | none =>
      -- no room with this id exists: the map touched nothing
      intro r' hr'
      obtain ⟨r, hrmem, hreq⟩ := List.mem_map.mp hr'
      by_cases hid : (r.roomId == room.roomId) = true
      · -- then the mapped room would have been found
        exfalso
        have hmem' : room ∈ (setRoom s room).rooms := by
          refine List.mem_map.mpr ⟨r, hrmem, ?_⟩
          simp [hid]
        have := List.find?_eq_none.mp hg room hmem'
        simp [hrid] at this
      · have hid' : (r.roomId == room.roomId) = false := by simpa using hid
        rw [← hreq]
        simp only [hid', Bool.false_eq_true, if_false]
        exact hInv r hrmem
    | some r0 =>
      have hr0mem : r0 ∈ (setRoom s room).rooms := List.mem_of_find?_eq_some hg
      have hr0id : r0.roomId = rid := by simpa using List.find?_some hg
      have hr0eq : r0 = room := setRoom_unique s room r0 hr0mem (hr0id.trans hrid.symm)
      rw [hr0eq]
      simp only [hempty.1, hempty.2, and_self, if_true]
      intro r' hr'
      have hr'' : r' ∈ (setRoom s room).rooms := List.mem_of_mem_filter hr'
      obtain ⟨r, hrmem, hreq⟩ := List.mem_map.mp hr''
      by_cases hid : (r.roomId == room.roomId) = true
      · -- copies of the stored (empty) room were filtered out
        exfalso
        have hfil := List.of_mem_filter hr'
        rw [← hreq] at hfil
        simp only [hid, if_true] at hfil
        simp [hrid] at hfil
      · have hid' : (r.roomId == room.roomId) = false := by simpa using hid
        rw [← hreq]
        simp only [hid', Bool.false_eq_true, if_false]
        exact hInv r hrmem
  · -- the stored room is nonempty
    have hne : room.clients ≠ [] ∨ room.watchers ≠ [] := by
      by_cases hc : room.clients = []
      · right
        exact fun hw => hempty ⟨hc, hw⟩
      · left
        exact hc
    exact RoomsInv_deleteRoomIfEmpty _ _
      (RoomsInv_setRoom s room (fun r hr _ => hInv r hr) hne)

/-- Removing one watcher everywhere leaves only rooms that are nonempty. -/
theorem RoomsInv_removeWatcher (s : ServerState) (cid : String) :
    RegistryInv (removeWatcherFromAllRooms s cid) := by
  intro r' hr'
  obtain ⟨room, hmem, hsome⟩ := List.mem_filterMap.mp hr'
  by_cases he : room.clients = [] ∧ room.watchers.erase cid = []
  · rw [if_pos he] at hsome
    exact absurd hsome (by simp)
  · rw [if_neg he] at hsome
    cases hsome
    by_cases hc : room.clients = []
    · right
      intro hw
      exact he ⟨hc, hw⟩
    · left
      exact hc

/-- `HasMember` only depends on the room registry. -/
theorem HasMember_congr (X Y : ServerState) (rid m : String)
    (h : X.rooms = Y.rooms) (hx : HasMember X rid m) : HasMember Y rid m := by
  unfold HasMember roomIds at *
  rw [← h]
  exact hx

/-- Storing a room preserves the registered ids. -/
theorem roomIds_setRoom (s : ServerState) (room : SRoom) :
    roomIds (setRoom s room) = roomIds s := by
  unfold roomIds setRoom
  rw [List.map_map]
  refine List.map_congr_left (fun r _ => ?_)
  by_cases hid : (r.roomId == room.roomId) = true
  · have : r.roomId = room.roomId := by simpa using hid
    simp [Function.comp, hid, this]
  · have hid' : (r.roomId == room.roomId) = false := by simpa using hid
    simp [Function.comp, hid']

/-- Storing a room preserves `HasMember`, provided the stored room still
holds the member whenever it carries the member's room id. -/
theorem HasMember_setRoom (s : ServerState) (room : SRoom) (rid m : String)
    (h : HasMember s rid m)
    (hroom : room.roomId = rid → (m ∈ room.clients ∨ m ∈ room.watchers)) :
    HasMember (setRoom s room) rid m := by
  constructor
  · rw [roomIds_setRoom]
    exact h.1
  · intro room' hmem' hid'
    obtain ⟨r, hrmem, hreq⟩ := List.mem_map.mp hmem'
    by_cases hid : (r.roomId == room.roomId) = true
    · have : room' = room := by
        rw [← hreq]
        simp [hid]
      rw [this]
      exact hroom (this ▸ hid')
    · have hid2 : (r.roomId == room.roomId) = false := by simpa using hid
      have : room' = r := by
        rw [← hreq]
        simp [hid2]
      rw [this]
      exact h.2 r hrmem (this ▸ hid')

/-- Deleting an empty room cannot remove a room that has a member. -/
theorem HasMember_deleteRoomIfEmpty (s : ServerState) (rid2 rid m : String)
    (h : HasMember s rid m) : HasMember (deleteRoomIfEmpty s rid2) rid m := by
  unfold deleteRoomIfEmpty
  cases hg : getRoom s rid2 with
  | none => exact h
  | some r0 =>
    by_cases he : r0.clients = [] ∧ r0.watchers = []
    · simp only [he, and_self, if_true]
      have hr0mem : r0 ∈ s.rooms := List.mem_of_find?_eq_some hg
      have hr0id : r0.roomId = rid2 := by simpa using List.find?_some hg
      have hner : rid ≠ rid2 := by
        intro hcontra
        rcases h.2 r0 hr0mem (hr0id.trans hcontra.symm) with hmc | hmw
        · rw [he.1] at hmc
          exact absurd hmc (List.not_mem_nil m)
        · rw [he.2] at hmw
          exact absurd hmw (List.not_mem_nil m)
      constructor
      · obtain ⟨roomk, hkmem, hkid⟩ := List.mem_map.mp h.1
        refine List.mem_map.mpr ⟨roomk, List.mem_filter.mpr ⟨hkmem, ?_⟩, hkid⟩
        rw [hkid]
        simpa using hner
      · intro room' hmem' hid'
        exact h.2 room' (List.mem_of_mem_filter hmem') hid'
    · simp only [he, if_false]
      exact h

/-- Create-on-demand preserves `HasMember`: the fresh room is empty but can
only be created under an id that was previously absent. -/
theorem HasMember_getOrCreateRoom (s : ServerState) (R rid m : String)
    (h : HasMember s rid m) : HasMember (getOrCreateRoom s R).1 rid m := by
  unfold getOrCreateRoom
  cases hg : getRoom s R with
  | some r => exact h
  | none =>
    constructor
    · exact List.mem_map.mp h.1 |>.elim (fun roomk hk =>
        List.mem_map.mpr ⟨roomk, List.mem_append_left _ hk.1, hk.2⟩)
    · intro room' hmem' hid'
      rcases List.mem_append.mp hmem' with hold | hnew
      · exact h.2 room' hold hid'
      · exfalso
        have : room' = ⟨R, [], []⟩ := List.mem_singleton.mp hnew
        rw [this] at hid'
        obtain ⟨roomk, hkmem, hkid⟩ := List.mem_map.mp h.1
        have := List.find?_eq_none.mp hg roomk hkmem
        simp [hkid, ← hid'] at this

/-- Removing another client's watcher entries cannot delete a room that has
`m ≠ cid` among its participants or watchers. -/
theorem HasMember_removeWatcher (s : ServerState) (cid rid m : String)
    (hm : m ≠ cid) (h : HasMember s rid m) :
    HasMember (removeWatcherFromAllRooms s cid) rid m := by
  have hkeep : ∀ room ∈ s.rooms, room.roomId = rid →
      (m ∈ room.clients ∨ m ∈ room.watchers.erase cid) := by
    intro room hmem hid
    rcases h.2 room hmem hid with hmc | hmw
    · exact Or.inl hmc
    · exact Or.inr ((List.mem_erase_of_ne hm).mpr hmw)
  constructor
  · obtain ⟨roomk, hkmem, hkid⟩ := List.mem_map.mp h.1
    have hknonempty : ¬ (roomk.clients = [] ∧ roomk.watchers.erase cid = []) := by
      rintro ⟨hc, hw⟩
      rcases hkeep roomk hkmem hkid with hmc | hmw
      · rw [hc] at hmc
        exact absurd hmc (List.not_mem_nil m)
      · rw [hw] at hmw
        exact absurd hmw (List.not_mem_nil m)
    refine List.mem_map.mpr ⟨{ roomk with watchers := roomk.watchers.erase cid },
      List.mem_filterMap.mpr ⟨roomk, hkmem, ?_⟩, hkid⟩
    rw [if_neg hknonempty]
  · intro room' hmem' hid'
    obtain ⟨room, hmem, hsome⟩ := List.mem_filterMap.mp hmem'
    by_cases he : room.clients = [] ∧ room.watchers.erase cid = []
    · rw [if_pos he] at hsome
      exact absurd hsome (by simp)
    · rw [if_neg he] at hsome
      cases hsome
      exact hkeep room hmem hid'

/-- The relay branch never mutates the server state. -/
theorem relayHandler_fst (s : ServerState) (cid : String) (m : CMsg) :
    (relayHandler s cid m).1 = s := by
  unfold relayHandler
  repeat' split
  all_goals rfl

/-- The state handler never touches the room registry. -/
theorem stateHandler_rooms (s : ServerState) (cid rid : String) (a b : Bool) :
    (stateHandler s cid rid a b).1.rooms = s.rooms := by
  unfold stateHandler
  repeat' split
  all_goals rfl

/-- Leaving preserves the registry invariant. -/
theorem RegistryInv_leave (s : ServerState) (cid : String) (h : RegistryInv s) :
    RegistryInv (leaveCurrentRoom s cid).1 := by
  cases hfc : findClient s cid with
  | none =>
    simp only [leaveCurrentRoom, hfc]
    exact h
  | some c =>
    cases hcr : c.roomId with
    | none =>
      simp only [leaveCurrentRoom, hfc, hcr]
      exact h
    | some R1 =>
      cases hg : getRoom s R1 with
      | none =>
        simp only [leaveCurrentRoom, hfc, hcr, hg]
        exact h
      | some room1 =>
        simp only [leaveCurrentRoom, hfc, hcr, hg]
        show RegistryInv (deleteRoomIfEmpty (updateClient (setRoom s
          { room1 with clients := room1.clients.erase cid }) cid
          (fun cl => { cl with roomId := none })) R1)
        unfold RegistryInv
        rw [rooms_deleteRoomIfEmpty_congr
          (updateClient (setRoom s { room1 with clients := room1.clients.erase cid }) cid
            (fun cl => { cl with roomId := none }))
          (setRoom s { room1 with clients := room1.clients.erase cid }) R1 rfl]
        exact RoomsInv_setRoom_then_delete s _ R1
          (by have hid := getRoom_roomId hg; exact hid) h

/-- Leaving cannot delete a room that still holds another member. -/
theorem HasMember_leave (s : ServerState) (cid rid m : String) (hm : m ≠ cid)
    (h : HasMember s rid m) : HasMember (leaveCurrentRoom s cid).1 rid m := by
  cases hfc : findClient s cid with
  | none =>
    simp only [leaveCurrentRoom, hfc]
    exact h
  | some c =>
    cases hcr : c.roomId with
    | none =>
      simp only [leaveCurrentRoom, hfc, hcr]
      exact h
    | some R1 =>
      cases hg : getRoom s R1 with
      | none =>
        simp only [leaveCurrentRoom, hfc, hcr, hg]
        exact HasMember_congr s _ rid m rfl h
      | some room1 =>
        simp only [leaveCurrentRoom, hfc, hcr, hg]
        show HasMember (deleteRoomIfEmpty (updateClient (setRoom s
          { room1 with clients := room1.clients.erase cid }) cid
          (fun cl => { cl with roomId := none })) R1) rid m
        have h1 : HasMember (setRoom s
            { room1 with clients := room1.clients.erase cid }) rid m := by
          refine HasMember_setRoom s _ rid m h (fun hid => ?_)
          have hmem1 : room1 ∈ s.rooms := List.mem_of_find?_eq_some hg
          rcases h.2 room1 hmem1 (by exact hid) with hmc | hmw
          · exact Or.inl ((List.mem_erase_of_ne hm).mpr hmc)
          · exact Or.inr hmw
        have h2 := HasMember_deleteRoomIfEmpty _ R1 rid m h1
        exact HasMember_congr _ _ rid m
          (rooms_deleteRoomIfEmpty_congr
            (setRoom s { room1 with clients := room1.clients.erase cid })
            (updateClient (setRoom s { room1 with clients := room1.clients.erase cid }) cid
              (fun cl => { cl with roomId := none })) R1 rfl) h2

/-- The created-or-found room carries the requested id. -/
theorem getOrCreateRoom_roomId (s : ServerState) (R : String) :
    (getOrCreateRoom s R).2.roomId = R := by
  unfold getOrCreateRoom
  cases hg : getRoom s R with
  | some r => simpa using List.find?_some hg
  | none => rfl

/-- The created-or-found room is registered in the returned state. -/
theorem getOrCreateRoom_mem (s : ServerState) (R : String) :
    (getOrCreateRoom s R).2 ∈ (getOrCreateRoom s R).1.rooms := by
  unfold getOrCreateRoom
  cases hg : getRoom s R with
  | some r => exact List.mem_of_find?_eq_some hg
  | none => exact List.mem_append_right _ (List.mem_singleton.mpr rfl)

/-- `Map.set` leaves the key set nonempty. -/
theorem insertId_ne_nil (l : List String) (x : String) : insertId l x ≠ [] := by
  unfold insertId
  split
  · rename_i hc
    intro hnil
    rw [hnil] at hc
    simp at hc
  · intro hnil
    simp at hnil

/-- `Map.set` never removes keys. -/
theorem insertId_superset (l : List String) (x y : String) (h : y ∈ l) :
    y ∈ insertId l x := by
  unfold insertId
  split
  · exact h
  · exact List.mem_append_left _ h

/-- Specification of one server step from client `cid`: the registry
invariant (every registered room has a participant or watcher — no leaked
empty rooms) is preserved, and a room holding a member other than `cid`
keeps its registry entry (no premature deletion). -/
def RegistryStepSpec (s : ServerState) (cid : String) (ev : SEvent) : Prop :=
  RegistryInv (serverStep s cid ev).1 ∧
  ∀ rid m, m ≠ cid → HasMember s rid m → rid ∈ roomIds (serverStep s cid ev).1

/-- C6: after the server finishes processing any single control message or a
disconnect, a room id is registered iff its membership maps are nonempty:
empty rooms are swept, and a room with a remaining active participant or
watcher other than the acting client is never deleted. -/
theorem claim_C6_registry_invariant (s : ServerState) (cid : String) (ev : SEvent)
    (hInv : RegistryInv s) : RegistryStepSpec s cid ev := by
  cases ev with
  | disconnect =>
    constructor
    · exact RoomsInv_removeWatcher (leaveCurrentRoom s cid).1 cid
    · intro rid m hm h
      have h1 := HasMember_leave s cid rid m hm h
      have h2 := HasMember_removeWatcher (leaveCurrentRoom s cid).1 cid rid m hm h1
      exact h2.1
  | msg mm =>
    cases mm with
    | join R2 name =>
      have hInv2 : RegistryInv (updateClient (leaveCurrentRoom s cid).1 cid
          (fun cl => { cl with displayName := name, roomId := some R2 })) :=
        RegistryInv_leave s cid hInv
      constructor
      · show RegistryInv (setRoom
          (getOrCreateRoom (updateClient (leaveCurrentRoom s cid).1 cid
            (fun cl => { cl with displayName := name, roomId := some R2 })) R2).1
          { (getOrCreateRoom (updateClient (leaveCurrentRoom s cid).1 cid
              (fun cl => { cl with displayName := name, roomId := some R2 })) R2).2 with
            clients := insertId
              ((getOrCreateRoom (updateClient (leaveCurrentRoom s cid).1 cid
                (fun cl => { cl with displayName := name, roomId := some R2 })) R2).2.clients)
              cid })
        cases hg2 : getRoom (updateClient (leaveCurrentRoom s cid).1 cid
            (fun cl => { cl with displayName := name, roomId := some R2 })) R2 with
        | some room2 =>
          have hgc : getOrCreateRoom (updateClient (leaveCurrentRoom s cid).1 cid
              (fun cl => { cl with displayName := name, roomId := some R2 })) R2
              = (updateClient (leaveCurrentRoom s cid).1 cid
                  (fun cl => { cl with displayName := name, roomId := some R2 }), room2) := by
            unfold getOrCreateRoom
            rw [hg2]
          rw [hgc]
          exact RoomsInv_setRoom _ _ (fun r hr _ => hInv2 r hr)
            (Or.inl (by dsimp only; exact insertId_ne_nil _ _))
        | none =>
          have hgc : getOrCreateRoom (updateClient (leaveCurrentRoom s cid).1 cid
              (fun cl => { cl with displayName := name, roomId := some R2 })) R2
              = ({ updateClient (leaveCurrentRoom s cid).1 cid
                    (fun cl => { cl with displayName := name, roomId := some R2 }) with
                   rooms := (updateClient (leaveCurrentRoom s cid).1 cid
                    (fun cl => { cl with displayName := name, roomId := some R2 })).rooms
                     ++ [⟨R2, [], []⟩] }, ⟨R2, [], []⟩) := by
            unfold getOrCreateRoom
            rw [hg2]
          rw [hgc]
          refine RoomsInv_setRoom _ _ ?_ (Or.inl (by dsimp only; exact insertId_ne_nil _ _))
          intro r hr hne2
          rcases List.mem_append.mp hr with hold | hnew
          · exact hInv2 r hold
          · exfalso
            have hreq : r = ⟨R2, [], []⟩ := List.mem_singleton.mp hnew
            exact hne2 (by rw [hreq])
      · intro rid m hm h
        have h1 := HasMember_leave s cid rid m hm h
        have h2 : HasMember (updateClient (leaveCurrentRoom s cid).1 cid
            (fun cl => { cl with displayName := name, roomId := some R2 })) rid m :=
          HasMember_congr _ _ rid m rfl h1
        have h3 := HasMember_getOrCreateRoom (updateClient (leaveCurrentRoom s cid).1 cid
            (fun cl => { cl with displayName := name, roomId := some R2 })) R2 rid m h2
        show rid ∈ roomIds (setRoom
          (getOrCreateRoom (updateClient (leaveCurrentRoom s cid).1 cid
            (fun cl => { cl with displayName := name, roomId := some R2 })) R2).1
          { (getOrCreateRoom (updateClient (leaveCurrentRoom s cid).1 cid
              (fun cl => { cl with displayName := name, roomId := some R2 })) R2).2 with
            clients := insertId
              ((getOrCreateRoom (updateClient (leaveCurrentRoom s cid).1 cid
                (fun cl => { cl with displayName := name, roomId := some R2 })) R2).2.clients)
              cid })
        refine (HasMember_setRoom _ _ rid m h3 (fun hid => ?_)).1
        have hmemg := getOrCreateRoom_mem (updateClient (leaveCurrentRoom s cid).1 cid
          (fun cl => { cl with displayName := name, roomId := some R2 })) R2
        rcases h3.2 _ hmemg (by exact hid) with hmc | hmw
        · exact Or.inl (insertId_superset _ _ _ hmc)
        · exact Or.inr hmw
    | watch R2 =>
      constructor
      · show RegistryInv (setRoom (getOrCreateRoom s R2).1
          { (getOrCreateRoom s R2).2 with
            watchers := insertId ((getOrCreateRoom s R2).2.watchers) cid })
        cases hg2 : getRoom s R2 with
        | some room2 =>
          have hgc : getOrCreateRoom s R2 = (s, room2) := by
            unfold getOrCreateRoom
            rw [hg2]
          rw [hgc]
          exact RoomsInv_setRoom _ _ (fun r hr _ => hInv r hr)
            (Or.inr (by dsimp only; exact insertId_ne_nil _ _))
        | none =>
          have hgc : getOrCreateRoom s R2
              = ({ s with rooms := s.rooms ++ [⟨R2, [], []⟩] }, ⟨R2, [], []⟩) := by
            unfold getOrCreateRoom
            rw [hg2]
          rw [hgc]
          refine RoomsInv_setRoom _ _ ?_ (Or.inr (by dsimp only; exact insertId_ne_nil _ _))
          intro r hr hne2
          rcases List.mem_append.mp hr with hold | hnew
          · exact hInv r hold
          · exfalso
            have hreq : r = ⟨R2, [], []⟩ := List.mem_singleton.mp hnew
            exact hne2 (by rw [hreq])
      · intro rid m hm h
        have h3 := HasMember_getOrCreateRoom s R2 rid m h
        show rid ∈ roomIds (setRoom (getOrCreateRoom s R2).1
          { (getOrCreateRoom s R2).2 with
            watchers := insertId ((getOrCreateRoom s R2).2.watchers) cid })
        refine (HasMember_setRoom _ _ rid m h3 (fun hid => ?_)).1
        have hmemg := getOrCreateRoom_mem s R2
        rcases h3.2 _ hmemg (by exact hid) with hmc | hmw
        · exact Or.inl hmc
        · exact Or.inr (insertId_superset _ _ _ hmw)
    | unwatch R2 =>
      cases hg2 : getRoom s R2 with
      | none =>
        constructor
        · show RegistryInv (unwatchHandler s cid R2).1
          simp only [unwatchHandler, hg2]
          exact hInv
        · intro rid m hm h
          show rid ∈ roomIds (unwatchHandler s cid R2).1
          simp only [unwatchHandler, hg2]
          exact h.1
      | some room2 =>
        constructor
        · show RegistryInv (unwatchHandler s cid R2).1
          simp only [unwatchHandler, hg2]
          show RegistryInv (deleteRoomIfEmpty (setRoom s
            { room2 with watchers := room2.watchers.erase cid }) room2.roomId)
          exact RoomsInv_setRoom_then_delete s _ room2.roomId rfl hInv
        · intro rid m hm h
          show rid ∈ roomIds (unwatchHandler s cid R2).1
          simp only [unwatchHandler, hg2]
          have h1 : HasMember (setRoom s
              { room2 with watchers := room2.watchers.erase cid }) rid m := by
            refine HasMember_setRoom s _ rid m h (fun hid => ?_)
            have hmem2 : room2 ∈ s.rooms := List.mem_of_find?_eq_some hg2
            rcases h.2 room2 hmem2 (by exact hid) with hmc | hmw
            · exact Or.inl hmc
            · exact Or.inr ((List.mem_erase_of_ne hm).mpr hmw)
          exact (HasMember_deleteRoomIfEmpty _ room2.roomId rid m h1).1
    | leave =>
      constructor
      · exact RegistryInv_leave s cid hInv
      · intro rid m hm h
        exact (HasMember_leave s cid rid m hm h).1
    | state rid2 a b =>
      constructor
      · show RegistryInv (stateHandler s cid rid2 a b).1
        unfold RegistryInv
        rw [stateHandler_rooms]
        exact hInv
      · intro rid m hm h
        show rid ∈ roomIds (stateHandler s cid rid2 a b).1
        unfold roomIds
        rw [stateHandler_rooms]
        exact h.1
    | offer t d =>
      constructor
      · show RegistryInv (relayHandler s cid (CMsg.offer t d)).1
        rw [relayHandler_fst]
        exact hInv
      · intro rid m hm h
        show rid ∈ roomIds (relayHandler s cid (CMsg.offer t d)).1
        rw [relayHandler_fst]
        exact h.1
    | answer t d =>
      constructor
      · show RegistryInv (relayHandler s cid (CMsg.answer t d)).1
        rw [relayHandler_fst]
        exact hInv
      · intro rid m hm h
        show rid ∈ roomIds (relayHandler s cid (CMsg.answer t d)).1
        rw [relayHandler_fst]
        exact h.1
    | ice t d =>
      constructor
      · show RegistryInv (relayHandler s cid (CMsg.ice t d)).1
        rw [relayHandler_fst]
        exact hInv
      · intro rid m hm h
        show rid ∈ roomIds (relayHandler s cid (CMsg.ice t d)).1
        rw [relayHandler_fst]
        exact h.1
    | text r ch msg =>
      constructor
      · show RegistryInv (relayHandler s cid (CMsg.text r ch msg)).1
        rw [relayHandler_fst]
        exact hInv
      · intro rid m hm h
        show rid ∈ roomIds (relayHandler s cid (CMsg.text r ch msg)).1
        rw [relayHandler_fst]
        exact h.1
    | vad r sp =>
      constructor
      · show RegistryInv (relayHandler s cid (CMsg.vad r sp)).1
        rw [relayHandler_fst]
        exact hInv
      · intro rid m hm h
        show rid ∈ roomIds (relayHandler s cid (CMsg.vad r sp)).1
        rw [relayHandler_fst]
        exact h.1

theorem claim_C6_witness :
    RegistryInv srvTwoRooms ∧
    RegistryStepSpec srvTwoRooms "c1" (SEvent.msg (CMsg.join "r2" "Ann")) :=
  ⟨by unfold RegistryInv RoomsInv; decide, claim_C6_registry_invariant srvTwoRooms "c1"
    (SEvent.msg (CMsg.join "r2" "Ann")) (by unfold RegistryInv RoomsInv; decide)⟩
